import Mathlib

/-!
Formal model of `djg_munich.py`, a Selenium-driven web extractor.

The Python program is embedded shallowly: every effectful statement
(clicks, sleeps, HTTP requests, file writes, diagnostics, the final JSON
dump) is recorded as an `Event` in a trace, and every Python exception

is an explicit `PyError`.  The browser, the HTTP layer and the
filesystem are abstracted into an `Env` structure of response functions,
so each Python function becomes a deterministic Lean function from the
environment to a trace and a result.
-/

/-- Selenium exception classes relevant to the program. -/
inductive SelError where
  | noSuchElement
  | timeout
  | staleElementReference
  | webdriverOther
deriving DecidableEq, Repr

/-- Python-level errors: a Selenium error, or a built-in exception raised
by indexing, iteration, attribute access or dictionary access. -/
inductive PyError where
  | sel (e : SelError)
  | indexError
  | typeError
  | attributeError
  | keyError
  | webdriverError
deriving DecidableEq, Repr

/-- Selectors used by the program (`By.TAG_NAME`, `By.XPATH`). -/
inductive By where
  | tag_name
  | xpath
deriving DecidableEq, Repr

/-- The string value of a `By` selector strategy, as interpolated into
the diagnostic message. -/
def By.str : By → String
  | .tag_name => "tag name"
  | .xpath => "xpath"

/-- A lookup scope: either the whole driver (document) or a web element,
identified by an abstract element id. -/
inductive Scope where
  | driver
  | elem (id : Nat)
deriving DecidableEq, Repr

/-- The Python value `execute_with_exception_handling` can produce: a
single element, a list of elements, or `None`. -/
inductive FindResult where
  | one (e : Nat)
  | many (es : List Nat)
  | nothing
deriving DecidableEq, Repr

/-- Python values appearing in the extraction result: strings, dicts
(association lists in insertion order, as Python dicts preserve
insertion order) and lists. -/
inductive PyVal where
  | str (s : String)
  | dict (entries : List (String × PyVal))
  | list (elems : List PyVal)

/-- Observable effects of the program, in program order. -/
inductive Event where
  | implicitWait (t : Nat)
  | navigate (url : String)
  | execScript (code : String)
  | sleepEv (t : Nat)
  | clickEv (e : Nat)
  | diag (msg : String)
  | switchToFrame (e : Nat)
  | httpGetEv (url : String)
  | fileWrite (path : String) (content : List Nat)
  | mkdir (path : String)
  | startDriver
  | quitDriver
  | jsonDump (path : String) (value : PyVal)

/-- The environment: how the browser, the site and the network respond
to each query the program can make. -/
structure Env where
  /-- Outcome of `driver.find_element(by, name)` on a scope. -/
  findElement : Scope → By → String → Except SelError Nat
  /-- Outcome of `driver.find_elements(by, name)` on a scope. -/
  findElements : Scope → By → String → Except SelError (List Nat)
  /-- The `.text` property of an element. -/
  elemText : Nat → String
  /-- `element.get_attribute(attr)`. -/
  getAttribute : Nat → String → String
  /-- `requests.get(url)`: status code and body bytes. -/
  httpGet : String → Nat × List Nat
  /-- Whether `WebDriverWait(driver, 10).until(EC.visibility_of e)` succeeds. -/
  visibleAfterWait : Nat → Bool
  /-- Whether `WebDriverWait(driver, 10).until(EC.element_to_be_clickable e)` succeeds. -/
  clickableAfterWait : Nat → Bool
  /-- `os.path.exists(path)`. -/
  pathExists : String → Bool
  /-- Whether `webdriver.Firefox(...)` starts successfully. -/
  driverStarts : Bool

/-- The effect monad: an event trace plus either a value or an
uncaught Python error.  The trace records everything emitted up to the
point of the error. -/
def M (α : Type) : Type := List Event × Except PyError α

namespace M

def pure (a : α) : M α := ([], Except.ok a)

def bind (x : M α) (f : α → M β) : M β :=
  match x with
  | (tr, Except.error e) => (tr, Except.error e)
  | (tr, Except.ok a) => ((tr ++ (f a).1 : List Event), (f a).2)

end M

instance : Monad M where
  pure := M.pure
  bind := M.bind

/-- Emit one event. -/
def emitEv (e : Event) : M Unit := ([e], Except.ok ())

/-- Raise an uncaught Python error. -/
def raisePy (e : PyError) : M α := ([], Except.error e)

/-- `element.click()`. -/
def clickOn (e : Nat) : M Unit := emitEv (Event.clickEv e)

/-- `time.sleep(t)`. -/
def sleep (t : Nat) : M Unit := emitEv (Event.sleepEv t)

/-- Python `xs[i]` on a list: the element, or `IndexError`. -/
def listIndexM (xs : List α) (i : Nat) : M α :=
  match xs[i]? with
  | some x => M.pure x
  | none => raisePy PyError.indexError

/-- Python `result[i]` on a `FindResult`: indexing a list works,
indexing `None` or a single element raises `TypeError`. -/
def FindResult.index : FindResult → Nat → M Nat
  | .many es, i => listIndexM es i
  | _, _ => raisePy PyError.typeError

/-- Python iteration over a `FindResult` (`for`/`map`): iterating a list
yields its elements, iterating `None` or an element raises `TypeError`. -/
def FindResult.iterate : FindResult → M (List Nat)
  | .many es => M.pure es
  | _ => raisePy PyError.typeError

/-- Python truthiness of a `FindResult`: `None` is falsy, an element is
truthy, a list is truthy iff non-empty. -/
def FindResult.truthy : FindResult → Bool
  | .nothing => false
  | .one _ => true
  | .many es => !es.isEmpty

/-- Python `result.text`: valid on a single element, otherwise
`AttributeError`. -/
def FindResult.textAttr (env : Env) : FindResult → M String
  | .one e => M.pure (env.elemText e)
  | _ => raisePy PyError.attributeError

/-- Association-list lookup, modelling Python `dict` key lookup. -/
def lookupKey : List (String × PyVal) → String → Option PyVal
  | [], _ => none
  | (k, v) :: rest, key => if k = key then some v else lookupKey rest key

/-- Python `d[k] = v`: update in place if the key exists (keeping its
position), otherwise append. -/
def dictInsert : List (String × PyVal) → String → PyVal → List (String × PyVal)
  | [], key, v => [(key, v)]
  | (k, w) :: rest, key, v =>
      if k = key then (k, v) :: rest else (k, w) :: dictInsert rest key v

/-- Python `d[k]` on a dict: the value, or `KeyError`. -/
def dictGetM (d : List (String × PyVal)) (k : String) : M PyVal :=
  match lookupKey d k with
  | some v => M.pure v
  | none => raisePy PyError.keyError

/-- Python `v[k] = ...` requires `v` to be a dict, else `TypeError`. -/
def asDict : PyVal → M (List (String × PyVal))
  | PyVal.dict es => M.pure es
  | _ => raisePy PyError.typeError

/-- Characters disallowed in filenames on common filesystems:
control characters and the reserved punctuation set. -/
def invalid_filename_chars : List Char :=
  ['\\', '/', ':', '*', '?', '"', '<', '>', '|']

/-- Whether a character is invalid in a filename. -/
def invalidFilenameChar (c : Char) : Bool :=
  decide (c.toNat < 32) || invalid_filename_chars.contains c

/-- Modelled from the spec: `pathvalidate.sanitize_filename` is an
external library function not present in the repository source; per the
spec glossary a sanitized filename is "a string transformed to
remove/escape characters disallowed by common filesystems", so it is
modelled as removing every invalid character. -/
def sanitize_filename (s : String) : String :=
  String.mk (s.data.filter (fun c => !invalidFilenameChar c))

/-- The diagnostic printed by `execute_with_exception_handling` when the
element is not found (apostrophe of the original wording elided). -/
def no_element_message (filter_name : String) (by_filter : By) : String :=
  "Could not find element " ++ filter_name ++ " with filter " ++ by_filter.str ++ "!"

/-- The body of the `try` block of `execute_with_exception_handling`:
`find_elements` when `all_elements` is set, `find_element` otherwise. -/
def rawLookup (env : Env) (scope : Scope) (by_filter : By)
    (filter_name : String) (all_elements : Bool) : Except SelError FindResult :=
  if all_elements
  then Except.map FindResult.many (env.findElements scope by_filter filter_name)
  else Except.map FindResult.one (env.findElement scope by_filter filter_name)

/-- Translation of `execute_with_exception_handling` (djg_munich.py
lines 38-64): run `find_elements` or `find_element`, catch
`NoSuchElementException` by printing a diagnostic and returning `None`,
and let every other exception propagate. -/
def execute_with_exception_handling (env : Env) (scope : Scope) (by_filter : By)
    (filter_name : String) (all_elements : Bool) : M FindResult :=
  match rawLookup env scope by_filter filter_name all_elements with
  | Except.ok data => M.pure data
  | Except.error SelError.noSuchElement =>
      ([Event.diag (no_element_message filter_name by_filter)], Except.ok FindResult.nothing)
  | Except.error e => raisePy (PyError.sel e)

/-- `wait.until(EC.element_to_be_clickable(e))`: the element if the wait
succeeds, `TimeoutException` otherwise. -/
def wait_until_clickable (env : Env) (e : Nat) : M Nat :=
  if env.clickableAfterWait e then M.pure e else raisePy (PyError.sel SelError.timeout)

/-- `wait.until(EC.visibility_of(fr))`: needs an actual element (calling
`.is_displayed()` on `None` or a list raises `AttributeError`); the
element if the wait succeeds, `TimeoutException` otherwise. -/
def wait_until_visible (env : Env) : FindResult → M Nat
  | FindResult.one e =>
      if env.visibleAfterWait e then M.pure e else raisePy (PyError.sel SelError.timeout)
  | _ => raisePy PyError.attributeError

/-- Translation of `click_alpha_navigation_button` (djg_munich.py lines
67-92): click the letter unless it is the first one, sleep 2, re-query
the `ul` elements and take index 1 as the accordion item, then collect
its button elements. -/
def click_alpha_navigation_button (env : Env) (i : Nat) (element : Nat) :
    M (Nat × FindResult) := do
  if i != 0 then clickOn element
  sleep 2
  let uls ← execute_with_exception_handling env Scope.driver By.tag_name "ul" true
  let accordion_item ← uls.index 1
  let button_elements ←
    execute_with_exception_handling env (Scope.elem accordion_item) By.xpath ".//button" true
  return (accordion_item, button_elements)

/-- The XPath of the body-text block. -/
def childrenXPath : String := "//div[@data-hook=\"children\"]"

/-- Translation of the image loop in `process_webpage_elements`
(djg_munich.py lines 134-147): for each image element, record its `src`
URL, perform the HTTP GET, and on status 200 write the body bytes to
`./images/<sanitized name>.png`. -/
def download_images (env : Env) (button_text : String) : List Nat → Nat → M (List String)
  | [], _ => M.pure []
  | image_box :: rest, i => do
      let image_url := env.getAttribute image_box "src"
      emitEv (Event.httpGetEv image_url)
      let response := env.httpGet image_url
      if response.1 == 200 then
        let sanitized_filename := sanitize_filename (button_text ++ "_" ++ Nat.repr i)
        let filename := "./images/" ++ sanitized_filename ++ ".png"
        emitEv (Event.fileWrite filename response.2)
      let urls ← download_images env button_text rest (i + 1)
      return (image_url :: urls)

/-- Translation of `process_webpage_elements` (djg_munich.py lines
95-151): click the sub-entry button unless it is the first one, sleep 3,
store the header, optionally the body text, download the images and
store their URLs. -/
def process_webpage_elements (env : Env) (j : Nat) (element : Nat) (accordion_item : Nat)
    (buttons : List String) : M PyVal := do
  if j != 0 then clickOn element
  sleep 3
  let data_container : List (String × PyVal) := []
  let button_text ← listIndexM buttons j
  let data_container := dictInsert data_container "header" (PyVal.str button_text)
  let text_box ←
    execute_with_exception_handling env (Scope.elem accordion_item) By.xpath childrenXPath false
  let data_container ←
    if text_box.truthy then do
      let t ← text_box.textAttr env
      M.pure (dictInsert data_container "text" (PyVal.str t))
    else M.pure data_container
  let image_boxes ←
    execute_with_exception_handling env (Scope.elem accordion_item) By.xpath "//img" true
  let boxes ← image_boxes.iterate
  let images ← download_images env button_text boxes 0
  let data_container := dictInsert data_container "images" (PyVal.list (images.map PyVal.str))
  return PyVal.dict data_container

/-- The page key for sub-entry index `j` (Python `f"page_{j}"`). -/
def pageKey (j : Nat) : String := "page_" ++ Nat.repr j

/-- Translation of the inner `for j, button in enumerate(button_elements)`
loop of `load_website` (djg_munich.py lines 208-213): wait for the
button to be clickable, process it, and store the result under
`extracted_data[alpha]["page_<j>"]`. -/
def inner_pages_loop (env : Env) (alpha : String) (accordion_item : Nat)
    (buttons : List String) :
    List Nat → Nat → List (String × PyVal) → M (List (String × PyVal))
  | [], _, acc => M.pure acc
  | button :: rest, j, acc => do
      let element ← wait_until_clickable env button
      let data_container ← process_webpage_elements env j element accordion_item buttons
      let innerVal ← dictGetM acc alpha
      let inner ← asDict innerVal
      let acc2 := dictInsert acc alpha (PyVal.dict (dictInsert inner (pageKey j) data_container))
      inner_pages_loop env alpha accordion_item buttons rest (j + 1) acc2

/-- Translation of the outer `for i, a_nav in enumerate(alpha_nav_buttons)`
loop of `load_website` (djg_munich.py lines 198-213). -/
def outer_letters_loop (env : Env) :
    List Nat → Nat → List (String × PyVal) → M (List (String × PyVal))
  | [], _, acc => M.pure acc
  | a_nav :: rest, i, acc => do
      let alpha := env.elemText a_nav
      let acc1 := dictInsert acc alpha (PyVal.dict [])
      let element ← wait_until_clickable env a_nav
      let pr ← click_alpha_navigation_button env i element
      let belems ← pr.2.iterate
      let buttons := belems.map env.elemText
      let acc2 ← inner_pages_loop env alpha pr.1 buttons belems 0 acc1
      outer_letters_loop env rest (i + 1) acc2

/-- Translation of `load_website` (djg_munich.py lines 154-215). -/
def load_website (env : Env) (url : String) : M PyVal := do
  emitEv (Event.implicitWait 10)
  emitEv (Event.navigate url)
  emitEv (Event.execScript "window.scrollTo(0, 100);")
  sleep 5
  let extracted_data : List (String × PyVal) := []
  let main_text ← execute_with_exception_handling env Scope.driver By.tag_name "main" false
  let extracted_data ←
    if main_text.truthy then do
      let t ← main_text.textAttr env
      M.pure (dictInsert extracted_data "main" (PyVal.str t))
    else M.pure extracted_data
  let content_iframe ← execute_with_exception_handling env Scope.driver By.tag_name "iframe" false
  let iframe ← wait_until_visible env content_iframe
  emitEv (Event.switchToFrame iframe)
  let uls ← execute_with_exception_handling env Scope.driver By.tag_name "ul" true
  let ul0 ← uls.index 0
  let alpha_nav_fr ← execute_with_exception_handling env (Scope.elem ul0) By.xpath ".//div" true
  let alpha_nav_buttons ← alpha_nav_fr.iterate
  let extracted ← outer_letters_loop env alpha_nav_buttons 0 extracted_data
  return PyVal.dict extracted

/-- Translation of `make_img_dir` (djg_munich.py lines 218-220). -/
def make_img_dir (env : Env) : M Unit :=
  if env.pathExists "./images" then M.pure () else emitEv (Event.mkdir "./images")

/-- Translation of `start_webdriver` (djg_munich.py lines 17-35): the
browser either starts or the automation layer raises (fatal). -/
def start_webdriver (env : Env) : M Unit :=
  if env.driverStarts then emitEv Event.startDriver else raisePy PyError.webdriverError

/-- The output path of the final JSON dump. -/
def jsonOutputPath : String := "./djg_munich.json"

/-- Translation of `start_extraction` (djg_munich.py lines 223-240):
create the image directory, start the browser, extract, quit, and dump
the result to the JSON file. -/
def start_extraction (env : Env) (url : String) : M Unit := do
  make_img_dir env
  start_webdriver env
  let extracted_content ← load_website env url
  emitEv Event.quitDriver
  emitEv (Event.jsonDump jsonOutputPath extracted_content)

/-! ## Basic lemmas about the effect monad -/

theorem M.bind_trace (x : M α) (f : α → M β) :
    (x >>= f).1 = x.1 ++ (match x.2 with
      | Except.ok a => (f a).1
      | Except.error _ => []) := by
  rcases x with ⟨t, r⟩
  cases r <;> simp [Bind.bind, M.bind]

theorem M.bind_result (x : M α) (f : α → M β) :
    (x >>= f).2 = (match x.2 with
      | Except.ok a => (f a).2
      | Except.error e => Except.error e) := by
  rcases x with ⟨t, r⟩
  cases r <;> simp [Bind.bind, M.bind]

theorem M.bind_ok (x : M α) (f : α → M β) (tr : List Event) (b : β) :
    x >>= f = (tr, Except.ok b) ↔
      ∃ t1 a t2, x = (t1, Except.ok a) ∧ f a = (t2, Except.ok b) ∧ tr = t1 ++ t2 := by
  rcases x with ⟨t, r⟩
  cases r with
  | error e =>
      simp only [Bind.bind, M.bind]
      constructor
      · intro h
        exact absurd (congrArg Prod.snd h) (by simp)
      · rintro ⟨t1, a, t2, h1, _, _⟩
        exact absurd (congrArg Prod.snd h1) (by simp)
  | ok a =>
      simp only [Bind.bind, M.bind]
      constructor
      · intro h
        refine ⟨t, a, (f a).1, rfl, ?_, ?_⟩
        · have h2 := congrArg Prod.snd h
          simp at h2
          exact Prod.ext rfl h2
        · have h1 := congrArg Prod.fst h
          simpa using h1.symm
      · rintro ⟨t1, a', t2, h1, h2, h3⟩
        have ha : a' = a := by
          have := congrArg Prod.snd h1
          simpa using this.symm
        have ht : t1 = t ∧ t2 = (f a).1 := by
          subst ha
          have e1 := congrArg Prod.fst h1
          have e2 := congrArg Prod.fst h2
          simp at e1 e2
          exact ⟨e1.symm, e2.symm⟩
        subst ha
        rcases ht with ⟨rfl, rfl⟩
        have := congrArg Prod.snd h2
        simp at this
        simp [h3, Prod.ext_iff, this]

theorem M.pure_eq (a : α) : (Pure.pure a : M α) = ([], Except.ok a) := rfl

theorem M.emitEv_eq (e : Event) : emitEv e = ([e], Except.ok ()) := rfl

/-! ## Dictionary lemmas -/

theorem lookupKey_dictInsert_self (d : List (String × PyVal)) (k : String) (v : PyVal) :
    lookupKey (dictInsert d k v) k = some v := by
  induction d with
  | nil => simp [dictInsert, lookupKey]
  | cons kv rest ih =>
      rcases kv with ⟨k', w⟩
      by_cases h : k' = k
      · simp [dictInsert, lookupKey, h]
      · simp [dictInsert, lookupKey, h, ih]

theorem lookupKey_dictInsert_other (d : List (String × PyVal)) (k k' : String) (v : PyVal)
    (h : k ≠ k') : lookupKey (dictInsert d k v) k' = lookupKey d k' := by
  induction d with
  | nil => simp [dictInsert, lookupKey, h]
  | cons kv rest ih =>
      rcases kv with ⟨k0, w⟩
      by_cases h0 : k0 = k
      · subst h0
        simp [dictInsert, lookupKey, h]
      · simp [dictInsert, lookupKey, h0, ih]

theorem lookupKey_eq_none_iff (d : List (String × PyVal)) (k : String) :
    lookupKey d k = none ↔ k ∉ d.map Prod.fst := by
  induction d with
  | nil => simp [lookupKey]
  | cons kv rest ih =>
      rcases kv with ⟨k', w⟩
      by_cases h : k' = k
      · simp [lookupKey, h]
      · simp [lookupKey, h, ih, Ne.symm h]

theorem dictInsert_eq_append (d : List (String × PyVal)) (k : String) (v : PyVal)
    (h : k ∉ d.map Prod.fst) : dictInsert d k v = d ++ [(k, v)] := by
  induction d with
  | nil => simp [dictInsert]
  | cons kv rest ih =>
      rcases kv with ⟨k', w⟩
      simp only [List.map, List.mem_cons, not_or] at h
      simp [dictInsert, Ne.symm h.1, ih h.2]

/-! ## Decimal representation of naturals: digits only, and injectivity -/

/-- Whether a character is one of the decimal digits `0`-`9`. -/
def isDecimalDigit (c : Char) : Bool :=
  decide (48 ≤ c.toNat) && decide (c.toNat ≤ 57)

/-- The numeric value of a decimal digit character. -/
def decDigitVal (c : Char) : Nat := c.toNat - 48

/-- Decode a digit string with an accumulator, inverse to `Nat.toDigitsCore`. -/
def decodeDigitsAux (a : Nat) (cs : List Char) : Nat :=
  cs.foldl (fun a c => 10 * a + decDigitVal c) a

theorem digitChar_val (d : Nat) (h : d < 10) : decDigitVal (Nat.digitChar d) = d := by
  interval_cases d <;> rfl

theorem digitChar_isDecimalDigit (d : Nat) (h : d < 10) :
    isDecimalDigit (Nat.digitChar d) = true := by
  interval_cases d <;> rfl

theorem decodeDigitsAux_cons (a : Nat) (c : Char) (cs : List Char) :
    decodeDigitsAux a (c :: cs) = decodeDigitsAux (10 * a + decDigitVal c) cs := rfl

theorem toDigitsCore_decode (fuel : Nat) :
    ∀ (n : Nat) (ds : List Char), n < fuel →
      decodeDigitsAux 0 (Nat.toDigitsCore 10 fuel n ds) = decodeDigitsAux n ds := by
  induction fuel with
  | zero => intro n ds h; omega
  | succ f ih =>
      intro n ds h
      simp only [Nat.toDigitsCore]
      by_cases h10 : n / 10 = 0
      · rw [if_pos h10, decodeDigitsAux_cons, digitChar_val (n % 10) (by omega)]
        have h2 : 10 * 0 + n % 10 = n := by omega
        rw [h2]
      · rw [if_neg h10, ih (n / 10) _ (by omega), decodeDigitsAux_cons,
          digitChar_val (n % 10) (by omega), Nat.div_add_mod]

theorem decode_toDigits (n : Nat) : decodeDigitsAux 0 (Nat.toDigits 10 n) = n := by
  have h := toDigitsCore_decode (n + 1) n [] (by omega)
  simpa [Nat.toDigits, decodeDigitsAux] using h

theorem repr_nat_injective : Function.Injective Nat.repr := by
  intro m n h
  have hd : Nat.toDigits 10 m = Nat.toDigits 10 n := by
    have := congrArg String.data h
    simpa [Nat.repr, List.asString] using this
  have hm := decode_toDigits m
  rw [hd, decode_toDigits] at hm
  exact hm.symm

theorem toDigitsCore_digits (fuel : Nat) :
    ∀ (n : Nat) (ds : List Char), n < fuel →
      (∀ c ∈ ds, isDecimalDigit c = true) →
      ∀ c ∈ Nat.toDigitsCore 10 fuel n ds, isDecimalDigit c = true := by
  induction fuel with
  | zero => intro n ds h; omega
  | succ f ih =>
      intro n ds h hds
      simp only [Nat.toDigitsCore]
      by_cases h10 : n / 10 = 0
      · rw [if_pos h10]
        intro c hc
        rcases List.mem_cons.mp hc with hc | hc
        · subst hc; exact digitChar_isDecimalDigit (n % 10) (by omega)
        · exact hds c hc
      · rw [if_neg h10]
        refine ih (n / 10) _ (by omega) ?_
        intro c hc
        rcases List.mem_cons.mp hc with hc | hc
        · subst hc; exact digitChar_isDecimalDigit (n % 10) (by omega)
        · exact hds c hc

theorem repr_digits (n : Nat) : ∀ c ∈ (Nat.repr n).data, isDecimalDigit c = true := by
  intro c hc
  refine toDigitsCore_digits (n + 1) n [] (by omega) (by simp) c ?_
  simpa [Nat.repr, Nat.toDigits, List.asString] using hc

/-- A decimal digit is never an invalid filename character. -/
theorem decimalDigit_not_invalid (c : Char) (h : isDecimalDigit c = true) :
    invalidFilenameChar c = false := by
  simp only [isDecimalDigit, Bool.and_eq_true, decide_eq_true_eq] at h
  simp only [invalidFilenameChar, invalid_filename_chars, Bool.or_eq_false_iff,
    decide_eq_false_iff_not, List.contains_cons, List.contains_nil,
    beq_eq_false_iff_ne, ne_eq, not_lt, and_true]
  refine ⟨by omega, ?_, ?_, ?_, ?_, ?_, ?_, ?_, ?_, ?_⟩ <;>
    exact fun hEq => by subst hEq; revert h; decide

/-- The underscore is never an invalid filename character. -/
theorem underscore_not_invalid : invalidFilenameChar '_' = false := by decide

theorem pageKey_injective : Function.Injective pageKey := by
  intro i j h
  have hd := congrArg String.data h
  simp only [pageKey, String.data_append] at hd
  have := List.append_cancel_left hd
  exact repr_nat_injective (String.ext this)

/-! ## Event classification and trace lemmas -/

/-- Whether an event is a simulated click. -/
def Event.isClick : Event → Bool
  | Event.clickEv _ => true
  | _ => false

/-- Whether an event is the final JSON dump. -/
def Event.isDump : Event → Bool
  | Event.jsonDump _ _ => true
  | _ => false

/-- All events of a computation satisfy a predicate. -/
def EmitsOnly (P : Event → Bool) (x : M α) : Prop := ∀ ev ∈ x.1, P ev = true

theorem EmitsOnly.bindM {P : Event → Bool} {x : M α} {f : α → M β}
    (hx : EmitsOnly P x) (hf : ∀ a, EmitsOnly P (f a)) : EmitsOnly P (x >>= f) := by
  intro ev hev
  rw [M.bind_trace] at hev
  rcases List.mem_append.mp hev with h | h
  · exact hx ev h
  · cases hr : x.2 with
    | ok a => rw [hr] at h; exact hf a ev h
    | error e => rw [hr] at h; simp at h

theorem EmitsOnly.pureM {P : Event → Bool} (a : α) : EmitsOnly P (Pure.pure a : M α) := by
  intro ev hev
  simp [Pure.pure, M.pure] at hev

theorem EmitsOnly.emitM {P : Event → Bool} {e : Event} (h : P e = true) :
    EmitsOnly P (emitEv e) := by
  intro ev hev
  simp [emitEv] at hev
  simpa [hev]

theorem EmitsOnly.raiseM {P : Event → Bool} (e : PyError) : EmitsOnly P (raisePy e : M α) := by
  intro ev hev
  simp [raisePy] at hev

theorem EmitsOnly.mpureM {P : Event → Bool} (a : α) : EmitsOnly P (M.pure a) := by
  intro ev hev
  simp [M.pure] at hev

/-- The helper emits at most one diagnostic event. -/
theorem exec_trace (env : Env) (s : Scope) (b : By) (f : String) (a : Bool) :
    (execute_with_exception_handling env s b f a).1 = [] ∨
    (execute_with_exception_handling env s b f a).1 = [Event.diag (no_element_message f b)] := by
  unfold execute_with_exception_handling
  split
  · left; rfl
  · right; rfl
  · left; rfl

theorem exec_emitsOnly {P : Event → Bool} (h : ∀ msg, P (Event.diag msg) = true)
    (env : Env) (s : Scope) (b : By) (f : String) (a : Bool) :
    EmitsOnly P (execute_with_exception_handling env s b f a) := by
  intro ev hev
  rcases exec_trace env s b f a with ht | ht <;> rw [ht] at hev
  · simp at hev
  · simp at hev
    simpa [hev] using h (no_element_message f b)

theorem listIndexM_emitsOnly {P : Event → Bool} (xs : List α) (i : Nat) :
    EmitsOnly P (listIndexM xs i) := by
  intro ev hev
  unfold listIndexM at hev
  split at hev <;> simp [M.pure, raisePy] at hev

theorem findResult_index_emitsOnly {P : Event → Bool} (fr : FindResult) (i : Nat) :
    EmitsOnly P (fr.index i) := by
  intro ev hev
  unfold FindResult.index at hev
  split at hev
  · exact listIndexM_emitsOnly _ _ ev hev
  · simp [raisePy] at hev

theorem findResult_iterate_emitsOnly {P : Event → Bool} (fr : FindResult) :
    EmitsOnly P fr.iterate := by
  intro ev hev
  unfold FindResult.iterate at hev
  split at hev <;> simp [M.pure, raisePy] at hev

theorem findResult_textAttr_emitsOnly {P : Event → Bool} (env : Env) (fr : FindResult) :
    EmitsOnly P (fr.textAttr env) := by
  intro ev hev
  unfold FindResult.textAttr at hev
  split at hev <;> simp [M.pure, raisePy] at hev

theorem wait_until_clickable_emitsOnly {P : Event → Bool} (env : Env) (e : Nat) :
    EmitsOnly P (wait_until_clickable env e) := by
  intro ev hev
  unfold wait_until_clickable at hev
  split at hev <;> simp [M.pure, raisePy] at hev

theorem wait_until_visible_emitsOnly {P : Event → Bool} (env : Env) (fr : FindResult) :
    EmitsOnly P (wait_until_visible env fr) := by
  intro ev hev
  unfold wait_until_visible at hev
  split at hev
  · split at hev <;> simp [M.pure, raisePy] at hev
  · simp [raisePy] at hev

theorem dictGetM_emitsOnly {P : Event → Bool} (d : List (String × PyVal)) (k : String) :
    EmitsOnly P (dictGetM d k) := by
  intro ev hev
  unfold dictGetM at hev
  split at hev <;> simp [M.pure, raisePy] at hev

theorem asDict_emitsOnly {P : Event → Bool} (v : PyVal) : EmitsOnly P (asDict v) := by
  intro ev hev
  unfold asDict at hev
  split at hev <;> simp [M.pure, raisePy] at hev

/-! ## Success-run inversion lemmas -/

theorem M.pure_ok {α : Type} (a b : α) (tr : List Event) :
    (Pure.pure a : M α) = (tr, Except.ok b) ↔ tr = [] ∧ b = a := by
  constructor
  · intro h
    have h1 := congrArg Prod.fst h
    have h2 := congrArg Prod.snd h
    simp only [Pure.pure, M.pure] at h1 h2
    exact ⟨h1.symm, (Except.ok.inj h2).symm⟩
  · rintro ⟨rfl, rfl⟩
    rfl

theorem raisePy_ne_ok {α : Type} (e : PyError) (tr : List Event) (a : α) :
    raisePy e ≠ (tr, Except.ok a) := by
  intro h
  have h2 := congrArg Prod.snd h
  simp [raisePy] at h2

theorem emitEv_ok (e : Event) (tr : List Event) (u : Unit) :
    emitEv e = (tr, Except.ok u) ↔ tr = [e] := by
  constructor
  · intro h
    have h1 := congrArg Prod.fst h
    simpa [emitEv] using h1.symm
  · rintro rfl
    rfl

theorem wait_until_clickable_ok (env : Env) (e : Nat) (tr : List Event) (a : Nat) :
    wait_until_clickable env e = (tr, Except.ok a) → tr = [] ∧ a = e := by
  unfold wait_until_clickable
  split
  · exact fun h => (M.pure_ok e a tr).mp h
  · exact fun h => absurd h (raisePy_ne_ok _ _ _)

theorem wait_until_visible_ok (env : Env) (fr : FindResult) (tr : List Event) (a : Nat) :
    wait_until_visible env fr = (tr, Except.ok a) → tr = [] ∧ fr = FindResult.one a := by
  unfold wait_until_visible
  split
  · split
    · intro h
      rcases (M.pure_ok _ a tr).mp h with ⟨rfl, rfl⟩
      exact ⟨rfl, rfl⟩
    · exact fun h => absurd h (raisePy_ne_ok _ _ _)
  · exact fun h => absurd h (raisePy_ne_ok _ _ _)

theorem listIndexM_ok {α : Type} (xs : List α) (i : Nat) (tr : List Event) (a : α) :
    listIndexM xs i = (tr, Except.ok a) → tr = [] ∧ xs[i]? = some a := by
  unfold listIndexM
  split
  · rename_i x hx
    intro h
    rcases (M.pure_ok x a tr).mp h with ⟨rfl, rfl⟩
    exact ⟨rfl, hx⟩
  · exact fun h => absurd h (raisePy_ne_ok _ _ _)

theorem findResult_index_ok (fr : FindResult) (i : Nat) (tr : List Event) (a : Nat) :
    fr.index i = (tr, Except.ok a) → tr = [] ∧ ∃ es, fr = FindResult.many es ∧ es[i]? = some a := by
  unfold FindResult.index
  rcases fr with e | es | _
  · exact fun h => absurd h (raisePy_ne_ok _ _ _)
  · intro h
    rcases listIndexM_ok es i tr a h with ⟨rfl, hx⟩
    exact ⟨rfl, es, rfl, hx⟩
  · exact fun h => absurd h (raisePy_ne_ok _ _ _)

theorem findResult_iterate_ok (fr : FindResult) (tr : List Event) (es : List Nat) :
    fr.iterate = (tr, Except.ok es) → tr = [] ∧ fr = FindResult.many es := by
  unfold FindResult.iterate
  rcases fr with e | es' | _
  · exact fun h => absurd h (raisePy_ne_ok _ _ _)
  · intro h
    rcases (M.pure_ok es' es tr).mp h with ⟨rfl, rfl⟩
    exact ⟨rfl, rfl⟩
  · exact fun h => absurd h (raisePy_ne_ok _ _ _)

theorem findResult_textAttr_ok (env : Env) (fr : FindResult) (tr : List Event) (s : String) :
    fr.textAttr env = (tr, Except.ok s) →
      tr = [] ∧ ∃ e, fr = FindResult.one e ∧ s = env.elemText e := by
  unfold FindResult.textAttr
  rcases fr with e | es | _
  · intro h
    rcases (M.pure_ok _ s tr).mp h with ⟨rfl, rfl⟩
    exact ⟨rfl, e, rfl, rfl⟩
  · exact fun h => absurd h (raisePy_ne_ok _ _ _)
  · exact fun h => absurd h (raisePy_ne_ok _ _ _)

theorem dictGetM_ok (d : List (String × PyVal)) (k : String) (tr : List Event) (v : PyVal) :
    dictGetM d k = (tr, Except.ok v) → tr = [] ∧ lookupKey d k = some v := by
  unfold dictGetM
  split
  · rename_i w hw
    intro h
    rcases (M.pure_ok w v tr).mp h with ⟨rfl, rfl⟩
    exact ⟨rfl, hw⟩
  · exact fun h => absurd h (raisePy_ne_ok _ _ _)

theorem asDict_ok (v : PyVal) (tr : List Event) (es : List (String × PyVal)) :
    asDict v = (tr, Except.ok es) → tr = [] ∧ v = PyVal.dict es := by
  unfold asDict
  rcases v with s | es' | l
  · exact fun h => absurd h (raisePy_ne_ok _ _ _)
  · intro h
    rcases (M.pure_ok es' es tr).mp h with ⟨rfl, rfl⟩
    exact ⟨rfl, rfl⟩
  · exact fun h => absurd h (raisePy_ne_ok _ _ _)

theorem exec_ok (env : Env) (s : Scope) (b : By) (f : String) (al : Bool)
    (tr : List Event) (r : FindResult) :
    execute_with_exception_handling env s b f al = (tr, Except.ok r) →
      (tr = [] ∧ rawLookup env s b f al = Except.ok r) ∨
      (tr = [Event.diag (no_element_message f b)] ∧
        rawLookup env s b f al = Except.error SelError.noSuchElement ∧
        r = FindResult.nothing) := by
  unfold execute_with_exception_handling
  split
  · rename_i data hdata
    intro h
    rcases (M.pure_ok data r tr).mp h with ⟨rfl, rfl⟩
    exact Or.inl ⟨rfl, hdata⟩
  · rename_i hdata
    intro h
    have h1 := congrArg Prod.fst h
    have h2 := congrArg Prod.snd h
    simp only at h1 h2
    exact Or.inr ⟨h1.symm, hdata, (Except.ok.inj h2).symm⟩
  · exact fun h => absurd h (raisePy_ne_ok _ _ _)

/-! ## Concrete environments for witnesses -/

/-- A simple concrete environment: every single-element lookup fails with
no-such-element, every multi-element lookup returns an empty list. -/
def baseEnv : Env where
  findElement := fun _ _ _ => Except.error SelError.noSuchElement
  findElements := fun _ _ _ => Except.ok []
  elemText := fun _ => "T"
  getAttribute := fun _ _ => "u"
  httpGet := fun _ => (404, [])
  visibleAfterWait := fun _ => true
  clickableAfterWait := fun _ => true
  pathExists := fun _ => true
  driverStarts := true

/-- Like `baseEnv` but single-element lookups raise a timeout. -/
def timeoutEnv : Env :=
  { baseEnv with findElement := fun _ _ _ => Except.error SelError.timeout }

/-! ## Claim C3 -/

/-- Claim C3: for every call to the element lookup helper, if the lookup
raises the no-such-element error the helper returns an absent result
(`None`) and emits a diagnostic message instead of propagating the
failure, and every other exception raised by the lookup (timeouts, stale
references) propagates to the caller as fatal. -/
theorem lookup_error_policy (env : Env) (scope : Scope) (by_filter : By)
    (filter_name : String) (all_elements : Bool) :
    (rawLookup env scope by_filter filter_name all_elements =
        Except.error SelError.noSuchElement →
      execute_with_exception_handling env scope by_filter filter_name all_elements =
        ([Event.diag (no_element_message filter_name by_filter)],
          Except.ok FindResult.nothing)) ∧
    (∀ e : SelError, e ≠ SelError.noSuchElement →
      rawLookup env scope by_filter filter_name all_elements = Except.error e →
      execute_with_exception_handling env scope by_filter filter_name all_elements =
        ([], Except.error (PyError.sel e))) := by
  constructor
  · intro h
    unfold execute_with_exception_handling
    rw [h]
  · intro e he h
    unfold execute_with_exception_handling
    rw [h]
    cases e with
    | noSuchElement => exact absurd rfl he
    | timeout => rfl
    | staleElementReference => rfl
    | webdriverOther => rfl

/-- Witness for C3: a concrete no-such-element lookup yields the
diagnostic and `None`; a concrete timeout propagates. -/
theorem lookup_error_policy_witness :
    execute_with_exception_handling baseEnv Scope.driver By.tag_name "main" false =
      ([Event.diag (no_element_message "main" By.tag_name)], Except.ok FindResult.nothing) ∧
    execute_with_exception_handling timeoutEnv Scope.driver By.tag_name "main" false =
      ([], Except.error (PyError.sel SelError.timeout)) :=
  ⟨(lookup_error_policy baseEnv Scope.driver By.tag_name "main" false).1 rfl,
   (lookup_error_policy timeoutEnv Scope.driver By.tag_name "main" false).2
      SelError.timeout (by decide) rfl⟩

/-! ## Claim C10 -/

/-- The documented Selenium contract: `find_elements` returns a list
(possibly empty) and never raises `NoSuchElementException`. -/
def FindElementsContract (env : Env) : Prop :=
  ∀ (s : Scope) (b : By) (f : String),
    env.findElements s b f ≠ Except.error SelError.noSuchElement

/-- Claim C10: whenever the lookup helper is called with the
multiple-results flag set, it returns a list (possibly empty) and never
`None`, because the multi-element search does not raise the
no-such-element error; the diagnostic-and-`None` branch is reachable
only in single-element mode, and an empty multi-element result produces
no diagnostic message. -/
theorem all_elements_mode_never_none (env : Env) (scope : Scope) (by_filter : By)
    (filter_name : String) (hc : FindElementsContract env) :
    (execute_with_exception_handling env scope by_filter filter_name true).1 = [] ∧
    ∀ r : FindResult,
      (execute_with_exception_handling env scope by_filter filter_name true).2 =
        Except.ok r → ∃ es, r = FindResult.many es := by
  have hraw : rawLookup env scope by_filter filter_name true =
      Except.map FindResult.many (env.findElements scope by_filter filter_name) := rfl
  cases hfe : env.findElements scope by_filter filter_name with
  | ok es =>
      unfold execute_with_exception_handling
      rw [hraw, hfe]
      refine ⟨rfl, fun r hr => ?_⟩
      simp only [Except.map, M.pure] at hr
      exact ⟨es, (Except.ok.inj hr).symm⟩
  | error e =>
      cases e with
      | noSuchElement => exact absurd hfe (hc scope by_filter filter_name)
      | timeout =>
          unfold execute_with_exception_handling
          rw [hraw, hfe]
          exact ⟨rfl, fun r hr => by simp [Except.map, raisePy] at hr⟩
      | staleElementReference =>
          unfold execute_with_exception_handling
          rw [hraw, hfe]
          exact ⟨rfl, fun r hr => by simp [Except.map, raisePy] at hr⟩
      | webdriverOther =>
          unfold execute_with_exception_handling
          rw [hraw, hfe]
          exact ⟨rfl, fun r hr => by simp [Except.map, raisePy] at hr⟩

/-- `baseEnv` satisfies the Selenium `find_elements` contract. -/
theorem baseEnv_contract : FindElementsContract baseEnv := by
  intro s b f h
  simp [baseEnv] at h

/-- Witness for C10: in the concrete environment the multi-element mode
returns the empty list with no diagnostic. -/
theorem all_elements_mode_never_none_witness :
    (execute_with_exception_handling baseEnv Scope.driver By.tag_name "ul" true).1 = [] ∧
    ∃ es, FindResult.many ([] : List Nat) = FindResult.many es :=
  ⟨(all_elements_mode_never_none baseEnv Scope.driver By.tag_name "ul" baseEnv_contract).1,
   (all_elements_mode_never_none baseEnv Scope.driver By.tag_name "ul" baseEnv_contract).2
      (FindResult.many []) rfl⟩

/-! ## Claim C8 -/

/-- Claim C8: for every input string, the filename sanitization function
produces a result containing no characters invalid for the host
filesystem, and it is idempotent: sanitizing an already-sanitized string
returns it unchanged. -/
theorem sanitize_filename_valid_idempotent (s : String) :
    (∀ c ∈ (sanitize_filename s).data, invalidFilenameChar c = false) ∧
    sanitize_filename (sanitize_filename s) = sanitize_filename s := by
  constructor
  · intro c hc
    simp only [sanitize_filename] at hc
    have h := List.of_mem_filter hc
    simpa using h
  · simp only [sanitize_filename]
    congr 1
    rw [List.filter_filter]
    simp

/-- Witness for C8: a concrete sanitization is idempotent and keeps only
valid characters. -/
theorem sanitize_filename_valid_idempotent_witness :
    sanitize_filename (sanitize_filename "a/b:c") = sanitize_filename "a/b:c" ∧
    invalidFilenameChar 'a' = false :=
  ⟨(sanitize_filename_valid_idempotent "a/b:c").2,
   (sanitize_filename_valid_idempotent "abc").1 'a' (by decide)⟩

/-! ## Claim C5 -/

/-- Claim C5: after revealing a letter, the walker re-queries the list of
sibling `ul` elements and takes the element at position 1 as the content
list; if fewer than two sibling lists exist (including zero), this
indexing fails with an unhandled fatal error rather than producing a
result. -/
theorem sibling_list_indexing (env : Env) (i : Nat) (element : Nat) :
    (∀ uls, env.findElements Scope.driver By.tag_name "ul" = Except.ok uls →
      uls.length < 2 →
      (click_alpha_navigation_button env i element).2 = Except.error PyError.indexError) ∧
    (∀ uls, env.findElements Scope.driver By.tag_name "ul" = Except.ok uls →
      2 ≤ uls.length →
      ∀ tr res, click_alpha_navigation_button env i element = (tr, Except.ok res) →
        uls[1]? = some res.1) := by
  have hraw : ∀ uls, env.findElements Scope.driver By.tag_name "ul" = Except.ok uls →
      execute_with_exception_handling env Scope.driver By.tag_name "ul" true =
        ([], Except.ok (FindResult.many uls)) := by
    intro uls hfe
    unfold execute_with_exception_handling rawLookup
    simp [hfe, Except.map, M.pure]
  constructor
  · intro uls hfe hlen
    have h0 : uls[1]? = none := List.getElem?_eq_none (by omega)
    have hidx : (FindResult.many uls).index 1 = ([], Except.error PyError.indexError) := by
      simp [FindResult.index, listIndexM, h0, raisePy]
    simp only [click_alpha_navigation_button]
    split <;>
      simp only [M.bind_result, clickOn, sleep, emitEv, hraw uls hfe, hidx, M.pure, Pure.pure]
  · intro uls hfe hlen tr res hrun
    simp only [click_alpha_navigation_button] at hrun
    split at hrun <;>
    · rw [M.bind_ok] at hrun
      obtain ⟨t1, u1, t2, h1, hrun, htr⟩ := hrun
      rw [M.bind_ok] at hrun
      obtain ⟨t3, u2, t4, h2, hrun, htr2⟩ := hrun
      rw [M.bind_ok] at hrun
      obtain ⟨t5, ulsFr, t6, h3, hrun, htr3⟩ := hrun
      rw [M.bind_ok] at hrun
      obtain ⟨t7, acc, t8, h4, hrun, htr4⟩ := hrun
      rw [M.bind_ok] at hrun
      obtain ⟨t9, btns, t10, h5, hrun, htr5⟩ := hrun
      rw [M.pure_ok] at hrun
      obtain ⟨rfl, rfl⟩ := hrun
      rw [hraw uls hfe] at h3
      have hFr : ulsFr = FindResult.many uls := by
        have h' := congrArg Prod.snd h3
        simpa using h'.symm
      subst hFr
      rcases findResult_index_ok _ _ _ _ h4 with ⟨rfl, es, hes, hidx2⟩
      have hes' : es = uls := (FindResult.many.inj hes).symm
      subst hes'
      simpa using hidx2

/-- An environment with a single `ul` sibling list so that `[1]` indexing
fails, but with each nested multi-element lookup returning elements. -/
def oneUlEnv : Env :=
  { baseEnv with
    findElements := fun s _ _ =>
      match s with
      | Scope.driver => Except.ok [3]
      | Scope.elem _ => Except.ok [] }

/-- An environment with two `ul` sibling lists. -/
def twoUlEnv : Env :=
  { baseEnv with
    findElements := fun s _ _ =>
      match s with
      | Scope.driver => Except.ok [3, 4]
      | Scope.elem _ => Except.ok [] }

/-- Witness for C5: one sibling list makes the walker fail with an index
error; with two sibling lists the element at position 1 is the accordion
item. -/
theorem sibling_list_indexing_witness :
    (click_alpha_navigation_button oneUlEnv 0 9).2 = Except.error PyError.indexError ∧
    ([3, 4][1]? = some ((4 : Nat), FindResult.many ([] : List Nat)).1) :=
  ⟨(sibling_list_indexing oneUlEnv 0 9).1 [3] rfl (by decide),
   (sibling_list_indexing twoUlEnv 0 9).2 [3, 4] rfl (by decide)
     (click_alpha_navigation_button twoUlEnv 0 9).1 (4, FindResult.many []) rfl⟩

/-! ## Claim C6 -/

theorem download_images_emitsOnly {P : Event → Bool}
    (hget : ∀ u, P (Event.httpGetEv u) = true)
    (hw : ∀ p c, P (Event.fileWrite p c) = true)
    (env : Env) (bt : String) :
    ∀ (boxes : List Nat) (i0 : Nat), EmitsOnly P (download_images env bt boxes i0) := by
  intro boxes
  induction boxes with
  | nil =>
      intro i0 ev hev
      simp [download_images, M.pure] at hev
  | cons b rest ih =>
      intro i0
      simp only [download_images]
      refine EmitsOnly.bindM (EmitsOnly.emitM (hget _)) (fun _ => ?_)
      split
      · refine EmitsOnly.bindM (EmitsOnly.emitM (hw _ _)) (fun _ => ?_)
        exact EmitsOnly.bindM (ih _) (fun urls => EmitsOnly.pureM _)
      · refine EmitsOnly.bindM (EmitsOnly.pureM _) (fun _ => ?_)
        exact EmitsOnly.bindM (ih _) (fun urls => EmitsOnly.pureM _)

/-- Claim C6: for every letter index `i` and every sub-entry index `j`, a
simulated click is issued if and only if the index is non-zero: letter
index 0 and sub-entry index 0 are assumed already visible/expanded and
are never clicked, while `i > 0` is clicked followed by a fixed
2-time-unit delay and `j > 0` is clicked followed by a fixed 3-time-unit
delay. -/
theorem click_iff_nonzero_index (env : Env) (i j : Nat) (elementI elementJ : Nat)
    (accordion_item : Nat) (buttons : List String) :
    (i ≠ 0 → ∃ rest, (click_alpha_navigation_button env i elementI).1 =
        Event.clickEv elementI :: Event.sleepEv 2 :: rest) ∧
    (i = 0 → ∀ ev ∈ (click_alpha_navigation_button env i elementI).1, ev.isClick = false) ∧
    (j ≠ 0 → ∃ rest, (process_webpage_elements env j elementJ accordion_item buttons).1 =
        Event.clickEv elementJ :: Event.sleepEv 3 :: rest) ∧
    (j = 0 → ∀ ev ∈ (process_webpage_elements env j elementJ accordion_item buttons).1,
        ev.isClick = false) := by
  refine ⟨?_, ?_, ?_, ?_⟩
  · intro hi
    simp only [click_alpha_navigation_button]
    rw [if_pos (show (i != 0) = true by simpa using hi)]
    simp only [M.bind_trace, clickOn, sleep, emitEv, List.cons_append, List.nil_append,
      List.singleton_append]
    exact ⟨_, rfl⟩
  · intro hi ev hev
    subst hi
    have hP : EmitsOnly (fun e => !e.isClick) (click_alpha_navigation_button env 0 elementI) := by
      simp only [click_alpha_navigation_button]
      rw [if_neg (by simp)]
      refine EmitsOnly.bindM (EmitsOnly.pureM _) (fun _ => ?_)
      refine EmitsOnly.bindM (EmitsOnly.emitM rfl) (fun _ => ?_)
      refine EmitsOnly.bindM (exec_emitsOnly (fun msg => rfl) _ _ _ _ _) (fun uls => ?_)
      refine EmitsOnly.bindM (findResult_index_emitsOnly _ _) (fun acc => ?_)
      refine EmitsOnly.bindM (exec_emitsOnly (fun msg => rfl) _ _ _ _ _) (fun btns => ?_)
      exact EmitsOnly.pureM _
    simpa using hP ev hev
  · intro hj
    simp only [process_webpage_elements]
    rw [if_pos (show (j != 0) = true by simpa using hj)]
    simp only [M.bind_trace, clickOn, sleep, emitEv, List.cons_append, List.nil_append,
      List.singleton_append]
    exact ⟨_, rfl⟩
  · intro hj ev hev
    subst hj
    have hP : EmitsOnly (fun e => !e.isClick)
        (process_webpage_elements env 0 elementJ accordion_item buttons) := by
      simp only [process_webpage_elements]
      rw [if_neg (by simp)]
      refine EmitsOnly.bindM (EmitsOnly.pureM _) (fun _ => ?_)
      refine EmitsOnly.bindM (EmitsOnly.emitM rfl) (fun _ => ?_)
      refine EmitsOnly.bindM (listIndexM_emitsOnly _ _) (fun bt => ?_)
      refine EmitsOnly.bindM (exec_emitsOnly (fun msg => rfl) _ _ _ _ _) (fun tb => ?_)
      split
      · refine EmitsOnly.bindM (findResult_textAttr_emitsOnly _ _) (fun t => ?_)
        refine EmitsOnly.bindM (EmitsOnly.mpureM _) (fun y => ?_)
        refine EmitsOnly.bindM (exec_emitsOnly (fun msg => rfl) _ _ _ _ _) (fun ib => ?_)
        refine EmitsOnly.bindM (findResult_iterate_emitsOnly _) (fun boxes => ?_)
        refine EmitsOnly.bindM (download_images_emitsOnly (fun u => rfl) (fun p c => rfl) _ _ _ _)
          (fun images => ?_)
        exact EmitsOnly.pureM _
      · refine EmitsOnly.bindM (EmitsOnly.mpureM _) (fun y => ?_)
        refine EmitsOnly.bindM (exec_emitsOnly (fun msg => rfl) _ _ _ _ _) (fun ib => ?_)
        refine EmitsOnly.bindM (findResult_iterate_emitsOnly _) (fun boxes => ?_)
        refine EmitsOnly.bindM (download_images_emitsOnly (fun u => rfl) (fun p c => rfl) _ _ _ _)
          (fun images => ?_)
        exact EmitsOnly.pureM _
    simpa using hP ev hev

/-- Witness for C6: concrete runs click exactly at the non-zero indices,
with the documented delays. -/
theorem click_iff_nonzero_index_witness :
    (∃ rest, (click_alpha_navigation_button baseEnv 1 5).1 =
        Event.clickEv 5 :: Event.sleepEv 2 :: rest) ∧
    (Event.sleepEv 2).isClick = false ∧
    (∃ rest, (process_webpage_elements baseEnv 1 6 7 ["a", "b"]).1 =
        Event.clickEv 6 :: Event.sleepEv 3 :: rest) ∧
    (Event.sleepEv 3).isClick = false :=
  ⟨(click_iff_nonzero_index baseEnv 1 1 5 6 7 ["a", "b"]).1 (by decide),
   (click_iff_nonzero_index baseEnv 0 0 5 6 7 ["a", "b"]).2.1 rfl (Event.sleepEv 2)
     (by rw [show (click_alpha_navigation_button baseEnv 0 5).1 = [Event.sleepEv 2] from rfl]
         exact List.mem_singleton.mpr rfl),
   (click_iff_nonzero_index baseEnv 1 1 5 6 7 ["a", "b"]).2.2.1 (by decide),
   (click_iff_nonzero_index baseEnv 0 0 5 6 7 ["a", "b"]).2.2.2 rfl (Event.sleepEv 3)
     (by rw [show (process_webpage_elements baseEnv 0 6 7 ["a", "b"]).1 =
           [Event.sleepEv 3, Event.diag (no_element_message childrenXPath By.xpath)] from rfl]
         exact List.mem_cons_self _ _)⟩

/-! ## Claim C4 -/

theorem M.mpure_ok {α : Type} (a b : α) (tr : List Event) :
    M.pure a = (tr, Except.ok b) ↔ tr = [] ∧ b = a := by
  constructor
  · intro h
    have h1 := congrArg Prod.fst h
    have h2 := congrArg Prod.snd h
    simp only [M.pure] at h1 h2
    exact ⟨h1.symm, (Except.ok.inj h2).symm⟩
  · rintro ⟨rfl, rfl⟩
    rfl

/-- The helper in single mode when `find_element` succeeds. -/
theorem exec_single_of_findElement_ok (env : Env) (s : Scope) (b : By) (f : String) (e : Nat)
    (h : env.findElement s b f = Except.ok e) :
    execute_with_exception_handling env s b f false = ([], Except.ok (FindResult.one e)) := by
  unfold execute_with_exception_handling rawLookup
  simp [h, Except.map, M.pure]

/-- The helper in single mode when `find_element` raises no-such-element. -/
theorem exec_single_of_findElement_nse (env : Env) (s : Scope) (b : By) (f : String)
    (h : env.findElement s b f = Except.error SelError.noSuchElement) :
    execute_with_exception_handling env s b f false =
      ([Event.diag (no_element_message f b)], Except.ok FindResult.nothing) := by
  unfold execute_with_exception_handling rawLookup
  simp [h, Except.map]

/-- Claim C4: for every processed entry, if the body-text block lookup
returns an absent result, the entry dictionary contains no `text` key at
all (absence, not null and not empty string); if the lookup returns an
element, the entry's `text` key holds that element's visible text. -/
theorem text_key_iff_found (env : Env) (j : Nat) (element accordion_item : Nat)
    (buttons : List String) (tr : List Event) (d : PyVal)
    (hrun : process_webpage_elements env j element accordion_item buttons = (tr, Except.ok d)) :
    (env.findElement (Scope.elem accordion_item) By.xpath childrenXPath =
        Except.error SelError.noSuchElement →
      ∃ entries, d = PyVal.dict entries ∧ lookupKey entries "text" = none) ∧
    (∀ e, env.findElement (Scope.elem accordion_item) By.xpath childrenXPath = Except.ok e →
      ∃ entries, d = PyVal.dict entries ∧
        lookupKey entries "text" = some (PyVal.str (env.elemText e))) := by
  constructor
  · intro hfe
    simp only [process_webpage_elements] at hrun
    split at hrun <;>
    · rw [M.bind_ok] at hrun
      obtain ⟨t1, u1, t2, h1, hrun, rfl⟩ := hrun
      rw [M.bind_ok] at hrun
      obtain ⟨t3, u2, t4, h2, hrun, rfl⟩ := hrun
      rw [M.bind_ok] at hrun
      obtain ⟨t5, bt, t6, h3, hrun, rfl⟩ := hrun
      rw [M.bind_ok] at hrun
      obtain ⟨t7, tb, t8, h4, hrun, rfl⟩ := hrun
      rw [exec_single_of_findElement_nse env _ _ _ hfe] at h4
      have htb : tb = FindResult.nothing := by
        have h' := congrArg Prod.snd h4
        simpa using h'.symm
      subst htb
      rw [if_neg (by simp [FindResult.truthy])] at hrun
      rw [M.bind_ok] at hrun
      obtain ⟨t9, y, t10, h5, hrun, rfl⟩ := hrun
      rw [M.mpure_ok] at h5
      obtain ⟨rfl, rfl⟩ := h5
      rw [M.bind_ok] at hrun
      obtain ⟨t11, ib, t12, h6, hrun, rfl⟩ := hrun
      rw [M.bind_ok] at hrun
      obtain ⟨t13, boxes, t14, h7, hrun, rfl⟩ := hrun
      rw [M.bind_ok] at hrun
      obtain ⟨t15, images, t16, h8, hrun, rfl⟩ := hrun
      rw [M.pure_ok] at hrun
      obtain ⟨rfl, rfl⟩ := hrun
      refine ⟨_, rfl, ?_⟩
      simp [dictInsert, lookupKey]
  · intro e hfe
    simp only [process_webpage_elements] at hrun
    split at hrun <;>
    · rw [M.bind_ok] at hrun
      obtain ⟨t1, u1, t2, h1, hrun, rfl⟩ := hrun
      rw [M.bind_ok] at hrun
      obtain ⟨t3, u2, t4, h2, hrun, rfl⟩ := hrun
      rw [M.bind_ok] at hrun
      obtain ⟨t5, bt, t6, h3, hrun, rfl⟩ := hrun
      rw [M.bind_ok] at hrun
      obtain ⟨t7, tb, t8, h4, hrun, rfl⟩ := hrun
      rw [exec_single_of_findElement_ok env _ _ _ e hfe] at h4
      have htb : tb = FindResult.one e := by
        have h' := congrArg Prod.snd h4
        simpa using h'.symm
      subst htb
      rw [if_pos (by simp [FindResult.truthy])] at hrun
      rw [M.bind_ok] at hrun
      obtain ⟨t9, t', t10, h5, hrun, rfl⟩ := hrun
      rcases findResult_textAttr_ok env _ _ _ h5 with ⟨rfl, e', he', ht⟩
      have he2 : e' = e := (FindResult.one.inj he').symm
      subst he2
      subst ht
      rw [M.bind_ok] at hrun
      obtain ⟨t9, y, t10, h6, hrun, rfl⟩ := hrun
      rw [M.mpure_ok] at h6
      obtain ⟨rfl, rfl⟩ := h6
      rw [M.bind_ok] at hrun
      obtain ⟨t11, ib, t12, h7, hrun, rfl⟩ := hrun
      rw [M.bind_ok] at hrun
      obtain ⟨t13, boxes, t14, h8, hrun, rfl⟩ := hrun
      rw [M.bind_ok] at hrun
      obtain ⟨t15, images, t16, h9, hrun, rfl⟩ := hrun
      rw [M.pure_ok] at hrun
      obtain ⟨rfl, rfl⟩ := hrun
      refine ⟨_, rfl, ?_⟩
      simp [dictInsert, lookupKey]

/-- Like `baseEnv` but the body-text block is present. -/
def textEnv : Env :=
  { baseEnv with
    findElement := fun _ _ _ => Except.ok 42
    elemText := fun _ => "Body" }

/-- Witness for C4: one concrete run omits the `text` key, another holds
the visible text of the found element. -/
theorem text_key_iff_found_witness :
    (∃ entries, PyVal.dict [("header", PyVal.str "a"), ("images", PyVal.list [])] =
        PyVal.dict entries ∧ lookupKey entries "text" = none) ∧
    (∃ entries, PyVal.dict [("header", PyVal.str "a"), ("text", PyVal.str "Body"),
        ("images", PyVal.list [])] = PyVal.dict entries ∧
        lookupKey entries "text" = some (PyVal.str "Body")) :=
  ⟨(text_key_iff_found baseEnv 0 6 7 ["a"]
      (process_webpage_elements baseEnv 0 6 7 ["a"]).1
      (PyVal.dict [("header", PyVal.str "a"), ("images", PyVal.list [])]) rfl).1 rfl,
   (text_key_iff_found textEnv 0 6 7 ["a"]
      (process_webpage_elements textEnv 0 6 7 ["a"]).1
      (PyVal.dict [("header", PyVal.str "a"), ("text", PyVal.str "Body"),
        ("images", PyVal.list [])]) rfl).2 42 rfl⟩

/-! ## Claim C2 -/

/-- The file path an image with header text `bt` and index `i` is saved to. -/
def imageFilePath (bt : String) (i : Nat) : String :=
  "./images/" ++ sanitize_filename (bt ++ "_" ++ Nat.repr i) ++ ".png"

/-- The event trace of the image-download loop. -/
def downloadTrace (env : Env) (bt : String) : List Nat → Nat → List Event
  | [], _ => []
  | b :: rest, i =>
      Event.httpGetEv (env.getAttribute b "src") ::
        ((if (env.httpGet (env.getAttribute b "src")).1 == 200
          then [Event.fileWrite (imageFilePath bt i) (env.httpGet (env.getAttribute b "src")).2]
          else []) ++ downloadTrace env bt rest (i + 1))

/-- Closed form of the image-download loop: it always succeeds, records
every `src` URL in order, and issues exactly the writes of
`downloadTrace`. -/
theorem download_images_spec (env : Env) (bt : String) :
    ∀ (boxes : List Nat) (i0 : Nat),
      download_images env bt boxes i0 =
        (downloadTrace env bt boxes i0,
         Except.ok (boxes.map (fun b => env.getAttribute b "src"))) := by
  intro boxes
  induction boxes with
  | nil => intro i0; rfl
  | cons b rest ih =>
      intro i0
      simp only [download_images, downloadTrace]
      by_cases hc : ((env.httpGet (env.getAttribute b "src")).1 == 200) = true
      · rw [if_pos hc, if_pos hc, ih]
        simp [Bind.bind, M.bind, emitEv, Pure.pure, M.pure, imageFilePath]
      · rw [if_neg hc, if_neg hc, ih]
        simp [Bind.bind, M.bind, emitEv, Pure.pure, M.pure]

theorem fileWrite_mem_downloadTrace (env : Env) (bt : String) :
    ∀ (boxes : List Nat) (i0 k : Nat) (b : Nat), boxes[k]? = some b →
      (env.httpGet (env.getAttribute b "src")).1 = 200 →
      Event.fileWrite (imageFilePath bt (i0 + k)) (env.httpGet (env.getAttribute b "src")).2 ∈
        downloadTrace env bt boxes i0 := by
  intro boxes
  induction boxes with
  | nil => intro i0 k b h; simp at h
  | cons b0 rest ih =>
      intro i0 k b hk h200
      cases k with
      | zero =>
          have hb : b0 = b := by simpa using hk
          subst hb
          simp only [downloadTrace]
          rw [if_pos (by simpa using h200)]
          rw [Nat.add_zero]
          exact List.mem_cons_of_mem _ (List.mem_append_left _ (List.mem_singleton.mpr rfl))
      | succ k' =>
          have hk' : rest[k']? = some b := by simpa using hk
          have hmem := ih (i0 + 1) k' b hk' h200
          have harith : i0 + 1 + k' = i0 + (k' + 1) := by omega
          rw [harith] at hmem
          simp only [downloadTrace]
          exact List.mem_cons_of_mem _ (List.mem_append_right _ hmem)

theorem mem_downloadTrace_fileWrite (env : Env) (bt : String) :
    ∀ (boxes : List Nat) (i0 : Nat) (p : String) (c : List Nat),
      Event.fileWrite p c ∈ downloadTrace env bt boxes i0 →
      ∃ k b, boxes[k]? = some b ∧ p = imageFilePath bt (i0 + k) ∧
        (env.httpGet (env.getAttribute b "src")).1 = 200 ∧
        c = (env.httpGet (env.getAttribute b "src")).2 := by
  intro boxes
  induction boxes with
  | nil => intro i0 p c h; simp [downloadTrace] at h
  | cons b0 rest ih =>
      intro i0 p c h
      simp only [downloadTrace] at h
      rcases List.mem_cons.mp h with h' | h'
      · simp at h'
      · rcases List.mem_append.mp h' with h2 | h2
        · by_cases hc : ((env.httpGet (env.getAttribute b0 "src")).1 == 200) = true
          · rw [if_pos hc] at h2
            rcases List.mem_singleton.mp h2 with h3
            have hp := (Event.fileWrite.inj h3).1
            have hcc := (Event.fileWrite.inj h3).2
            refine ⟨0, b0, by simp, ?_, by simpa using hc, hcc⟩
            rw [Nat.add_zero]
            exact hp
          · rw [if_neg hc] at h2
            simp at h2
        · rcases ih (i0 + 1) p c h2 with ⟨k, b, hk, hp, h200, hcc⟩
          refine ⟨k + 1, b, by simpa using hk, ?_, h200, hcc⟩
          rw [hp]
          congr 1
          omega

theorem sanitize_filename_append (a b : String) :
    sanitize_filename (a ++ b) = sanitize_filename a ++ sanitize_filename b := by
  apply String.ext
  simp [sanitize_filename, String.data_append, List.filter_append]

theorem sanitize_filename_repr (n : Nat) : sanitize_filename (Nat.repr n) = Nat.repr n := by
  apply String.ext
  simp only [sanitize_filename]
  apply List.filter_eq_self.mpr
  intro c hc
  have hd := repr_digits n c hc
  simp [decimalDigit_not_invalid c hd]

theorem imageFilePath_inj_right (bt : String) (i i' : Nat)
    (h : imageFilePath bt i = imageFilePath bt i') : i = i' := by
  have hd := congrArg String.data h
  simp only [imageFilePath, String.data_append] at hd
  have h1 := List.append_cancel_right hd
  have h2 := List.append_cancel_left h1
  have h3 : sanitize_filename (bt ++ "_" ++ Nat.repr i) =
      sanitize_filename (bt ++ "_" ++ Nat.repr i') := String.ext h2
  simp only [sanitize_filename_append, sanitize_filename_repr] at h3
  have h4 := congrArg String.data h3
  simp only [String.data_append] at h4
  have h5 := List.append_cancel_left h4
  exact repr_nat_injective (String.ext h5)

theorem no_fileWrite_of_eq {α : Type} {x : M α} {t : List Event} {r : Except PyError α}
    (h : x = (t, r)) (hx : ∀ p c, Event.fileWrite p c ∉ x.1) :
    ∀ p c, Event.fileWrite p c ∉ t := by
  intro p c hm
  exact hx p c (by rw [h]; exact hm)

theorem rawLookup_multi_ok (env : Env) (s : Scope) (b : By) (f : String) (es : List Nat)
    (h : rawLookup env s b f true = Except.ok (FindResult.many es)) :
    env.findElements s b f = Except.ok es := by
  unfold rawLookup at h
  cases hfe : env.findElements s b f with
  | ok es' =>
      rw [hfe] at h
      simp [Except.map] at h
      rw [h]
  | error e =>
      rw [hfe] at h
      simp [Except.map] at h

/-- Full characterization of a successful `process_webpage_elements` run:
the header comes from `buttons[j]`, the image boxes from the
(document-wide) `//img` lookup, the produced dict is header, optional
text, then the images URLs in DOM order, and the trace is a write-free
prefix followed by exactly the download trace. -/
theorem process_webpage_elements_run (env : Env) (j : Nat) (element accordion_item : Nat)
    (buttons : List String) (tr : List Event) (d : PyVal)
    (hrun : process_webpage_elements env j element accordion_item buttons = (tr, Except.ok d)) :
    ∃ (bt : String) (boxes : List Nat) (y : List (String × PyVal)) (pre : List Event),
      buttons[j]? = some bt ∧
      env.findElements (Scope.elem accordion_item) By.xpath "//img" = Except.ok boxes ∧
      (y = [("header", PyVal.str bt)] ∨
        ∃ t, y = [("header", PyVal.str bt), ("text", PyVal.str t)]) ∧
      d = PyVal.dict (dictInsert y "images"
            (PyVal.list ((boxes.map (fun b => env.getAttribute b "src")).map PyVal.str))) ∧
      tr = pre ++ downloadTrace env bt boxes 0 ∧
      (∀ p c, Event.fileWrite p c ∉ pre) := by
  simp only [process_webpage_elements] at hrun
  split at hrun <;>
  · rw [M.bind_ok] at hrun
    obtain ⟨t1, u1, t2, h1, hrun, rfl⟩ := hrun
    have hw1 : ∀ p c, Event.fileWrite p c ∉ t1 :=
      no_fileWrite_of_eq h1 (by intro p c hm; simp [clickOn, emitEv, Pure.pure, M.pure] at hm)
    rw [M.bind_ok] at hrun
    obtain ⟨t3, u2, t4, h2, hrun, rfl⟩ := hrun
    have hw3 : ∀ p c, Event.fileWrite p c ∉ t3 :=
      no_fileWrite_of_eq h2 (by intro p c hm; simp [sleep, emitEv] at hm)
    rw [M.bind_ok] at hrun
    obtain ⟨t5, bt, t6, h3, hrun, rfl⟩ := hrun
    obtain ⟨rfl, hbt⟩ := listIndexM_ok buttons j t5 bt h3
    rw [M.bind_ok] at hrun
    obtain ⟨t7, tb, t8, h4, hrun, rfl⟩ := hrun
    have hw7 : ∀ p c, Event.fileWrite p c ∉ t7 :=
      no_fileWrite_of_eq h4 (by
        intro p c hm
        rcases exec_trace env (Scope.elem accordion_item) By.xpath childrenXPath false with
          he | he <;> rw [he] at hm <;> simp at hm)
    split at hrun
    · rw [M.bind_ok] at hrun
      obtain ⟨t9, tstr, t10, h5, hrun, rfl⟩ := hrun
      obtain ⟨rfl, e', he', htA⟩ := findResult_textAttr_ok env tb t9 tstr h5
      rw [M.bind_ok] at hrun
      obtain ⟨t11, y, t12, h6, hrun, rfl⟩ := hrun
      rw [M.mpure_ok] at h6
      obtain ⟨rfl, rfl⟩ := h6
      rw [M.bind_ok] at hrun
      obtain ⟨t13, ib, t14, h7, hrun, rfl⟩ := hrun
      rw [M.bind_ok] at hrun
      obtain ⟨t15, boxes, t16, h8, hrun, rfl⟩ := hrun
      obtain ⟨rfl, rfl⟩ := findResult_iterate_ok ib t15 boxes h8
      rcases exec_ok env _ _ _ _ _ _ h7 with ⟨rfl, hraw⟩ | ⟨rfl, hraw, hne⟩
      · have hfe := rawLookup_multi_ok env _ _ _ _ hraw
        rw [M.bind_ok] at hrun
        obtain ⟨t17, images, t18, h9, hrun, rfl⟩ := hrun
        rw [download_images_spec] at h9
        have ht17 : downloadTrace env bt boxes 0 = t17 := congrArg Prod.fst h9
        have himg : images = boxes.map (fun b => env.getAttribute b "src") := by
          have hsnd := congrArg Prod.snd h9
          simpa using hsnd.symm
        subst himg
        rw [M.pure_ok] at hrun
        obtain ⟨rfl, rfl⟩ := hrun
        refine ⟨bt, boxes, _, t1 ++ (t3 ++ t7), hbt, hfe,
          Or.inr ⟨tstr, by simp [dictInsert]⟩, rfl, ?_, ?_⟩
        · rw [← ht17]
          simp [List.append_assoc]
        · intro p c hm
          rcases List.mem_append.mp hm with hm | hm
          · exact hw1 p c hm
          rcases List.mem_append.mp hm with hm | hm
          · exact hw3 p c hm
          · exact hw7 p c hm
      · simp at hne
    · rw [M.bind_ok] at hrun
      obtain ⟨t11, y, t12, h6, hrun, rfl⟩ := hrun
      rw [M.mpure_ok] at h6
      obtain ⟨rfl, rfl⟩ := h6
      rw [M.bind_ok] at hrun
      obtain ⟨t13, ib, t14, h7, hrun, rfl⟩ := hrun
      rw [M.bind_ok] at hrun
      obtain ⟨t15, boxes, t16, h8, hrun, rfl⟩ := hrun
      obtain ⟨rfl, rfl⟩ := findResult_iterate_ok ib t15 boxes h8
      rcases exec_ok env _ _ _ _ _ _ h7 with ⟨rfl, hraw⟩ | ⟨rfl, hraw, hne⟩
      · have hfe := rawLookup_multi_ok env _ _ _ _ hraw
        rw [M.bind_ok] at hrun
        obtain ⟨t17, images, t18, h9, hrun, rfl⟩ := hrun
        rw [download_images_spec] at h9
        have ht17 : downloadTrace env bt boxes 0 = t17 := congrArg Prod.fst h9
        have himg : images = boxes.map (fun b => env.getAttribute b "src") := by
          have hsnd := congrArg Prod.snd h9
          simpa using hsnd.symm
        subst himg
        rw [M.pure_ok] at hrun
        obtain ⟨rfl, rfl⟩ := hrun
        refine ⟨bt, boxes, _, t1 ++ (t3 ++ t7), hbt, hfe,
          Or.inl (by simp [dictInsert]), rfl, ?_, ?_⟩
        · rw [← ht17]
          simp [List.append_assoc]
        · intro p c hm
          rcases List.mem_append.mp hm with hm | hm
          · exact hw1 p c hm
          rcases List.mem_append.mp hm with hm | hm
          · exact hw3 p c hm
          · exact hw7 p c hm
      · simp at hne

/-- Claim C2: for every discovered image URL, the URL is appended to the
entry's `images` list unconditionally; if the HTTP GET returns status
200 a file write of exactly the response body bytes is issued at
`./images/<sanitized header_index>.png`, and if the status is not 200 no
file is written for that image while the URL still appears in the
`images` list. -/
theorem images_recorded_and_written (env : Env) (j : Nat) (element accordion_item : Nat)
    (buttons : List String) (tr : List Event) (d : PyVal) (boxes : List Nat) (bt : String)
    (hrun : process_webpage_elements env j element accordion_item buttons = (tr, Except.ok d))
    (hbt : buttons[j]? = some bt)
    (hboxes : env.findElements (Scope.elem accordion_item) By.xpath "//img" = Except.ok boxes) :
    (∃ entries, d = PyVal.dict entries ∧
       lookupKey entries "images" =
         some (PyVal.list ((boxes.map (fun b => env.getAttribute b "src")).map PyVal.str))) ∧
    (∀ k b, boxes[k]? = some b →
      ((env.httpGet (env.getAttribute b "src")).1 = 200 →
        Event.fileWrite (imageFilePath bt k) (env.httpGet (env.getAttribute b "src")).2 ∈ tr) ∧
      ((env.httpGet (env.getAttribute b "src")).1 ≠ 200 →
        ∀ c, Event.fileWrite (imageFilePath bt k) c ∉ tr)) := by
  obtain ⟨bt', boxes', y, pre, hbt', hboxes', hy, hd, htr, hpre⟩ :=
    process_webpage_elements_run env j element accordion_item buttons tr d hrun
  rw [hbt'] at hbt
  have hbt2 : bt' = bt := Option.some.inj hbt
  subst hbt2
  rw [hboxes'] at hboxes
  have hbx : boxes' = boxes := Except.ok.inj hboxes
  subst hbx
  constructor
  · refine ⟨_, hd, ?_⟩
    rcases hy with hy | ⟨t, hy⟩ <;> subst hy <;> simp [dictInsert, lookupKey]
  · intro k b hk
    constructor
    · intro h200
      rw [htr]
      refine List.mem_append_right _ ?_
      have hmem := fileWrite_mem_downloadTrace env bt' boxes' 0 k b hk h200
      simpa using hmem
    · intro h200 c hmem
      rw [htr] at hmem
      rcases List.mem_append.mp hmem with hm | hm
      · exact hpre _ _ hm
      · rcases mem_downloadTrace_fileWrite env bt' boxes' 0 _ _ hm with ⟨k', b', hk', hp, h2, hc⟩
        have hkk : k = 0 + k' := imageFilePath_inj_right bt' _ _ hp
        have hkk2 : k' = k := by omega
        subst hkk2
        rw [hk] at hk'
        have hb : b' = b := (Option.some.inj hk').symm
        rw [hb] at h2
        exact h200 h2

/-- Like `baseEnv` but with two images on the page, one downloading with
status 200 and body bytes `[1, 2, 3]`, the other with status 404. -/
def imgEnv : Env :=
  { baseEnv with
    findElements := fun s _ _ =>
      match s with
      | Scope.driver => Except.ok [3, 4]
      | Scope.elem _ => Except.ok [20, 21]
    getAttribute := fun b _ => if b == 20 then "http://x/ok.png" else "http://x/bad.png"
    httpGet := fun u => if u == "http://x/ok.png" then (200, [1, 2, 3]) else (404, []) }

/-- Witness for C2: in the concrete run both URLs are recorded, the 200
image is written with exactly its body bytes, and the 404 image is not
written. -/
theorem images_recorded_and_written_witness :
    (∃ entries, PyVal.dict [("header", PyVal.str "a"),
        ("images", PyVal.list [PyVal.str "http://x/ok.png", PyVal.str "http://x/bad.png"])] =
          PyVal.dict entries ∧
       lookupKey entries "images" =
         some (PyVal.list [PyVal.str "http://x/ok.png", PyVal.str "http://x/bad.png"])) ∧
    Event.fileWrite (imageFilePath "a" 0) [1, 2, 3] ∈
      (process_webpage_elements imgEnv 0 6 7 ["a"]).1 ∧
    Event.fileWrite (imageFilePath "a" 1) [9] ∉
      (process_webpage_elements imgEnv 0 6 7 ["a"]).1 :=
  ⟨(images_recorded_and_written imgEnv 0 6 7 ["a"]
      (process_webpage_elements imgEnv 0 6 7 ["a"]).1
      (PyVal.dict [("header", PyVal.str "a"),
        ("images", PyVal.list [PyVal.str "http://x/ok.png", PyVal.str "http://x/bad.png"])])
      [20, 21] "a" rfl rfl rfl).1,
   ((images_recorded_and_written imgEnv 0 6 7 ["a"]
      (process_webpage_elements imgEnv 0 6 7 ["a"]).1
      (PyVal.dict [("header", PyVal.str "a"),
        ("images", PyVal.list [PyVal.str "http://x/ok.png", PyVal.str "http://x/bad.png"])])
      [20, 21] "a" rfl rfl rfl).2 0 20 rfl).1 rfl,
   ((images_recorded_and_written imgEnv 0 6 7 ["a"]
      (process_webpage_elements imgEnv 0 6 7 ["a"]).1
      (PyVal.dict [("header", PyVal.str "a"),
        ("images", PyVal.list [PyVal.str "http://x/ok.png", PyVal.str "http://x/bad.png"])])
      [20, 21] "a" rfl rfl rfl).2 1 21 rfl).2 (by decide) [9]⟩

/-! ## Claim C1 -/

theorem inner_pages_loop_shape (env : Env) (alpha : String) (accordion_item : Nat)
    (buttons : List String) :
    ∀ (belems : List Nat) (j : Nat) (acc : List (String × PyVal))
      (entries : List (String × PyVal)) (tr : List Event) (acc' : List (String × PyVal)),
      lookupKey acc alpha = some (PyVal.dict entries) →
      entries.map Prod.fst = (List.range j).map pageKey →
      inner_pages_loop env alpha accordion_item buttons belems j acc = (tr, Except.ok acc') →
      ∃ entries', lookupKey acc' alpha = some (PyVal.dict entries') ∧
        entries'.map Prod.fst = (List.range (j + belems.length)).map pageKey := by
  intro belems
  induction belems with
  | nil =>
      intro j acc entries tr acc' hacc hkeys hrun
      simp only [inner_pages_loop] at hrun
      rw [M.mpure_ok] at hrun
      obtain ⟨rfl, rfl⟩ := hrun
      exact ⟨entries, hacc, by simpa using hkeys⟩
  | cons button rest ih =>
      intro j acc entries tr acc' hacc hkeys hrun
      simp only [inner_pages_loop] at hrun
      rw [M.bind_ok] at hrun
      obtain ⟨t1, el, t2, h1, hrun, rfl⟩ := hrun
      rw [M.bind_ok] at hrun
      obtain ⟨t3, dc, t4, h2, hrun, rfl⟩ := hrun
      rw [M.bind_ok] at hrun
      obtain ⟨t5, innerVal, t6, h3, hrun, rfl⟩ := hrun
      obtain ⟨rfl, hlk⟩ := dictGetM_ok acc alpha t5 innerVal h3
      rw [M.bind_ok] at hrun
      obtain ⟨t7, inner, t8, h4, hrun, rfl⟩ := hrun
      obtain ⟨rfl, hiv⟩ := asDict_ok innerVal t7 inner h4
      have hie : inner = entries := by
        rw [hacc] at hlk
        have hinj := Option.some.inj hlk
        rw [hiv] at hinj
        exact (PyVal.dict.inj hinj).symm
      subst hie
      have hnot : pageKey j ∉ inner.map Prod.fst := by
        rw [hkeys]
        intro hmem
        rcases List.mem_map.mp hmem with ⟨k, hk, hkeq⟩
        have hkj : k = j := pageKey_injective hkeq
        subst hkj
        exact absurd (List.mem_range.mp hk) (lt_irrefl k)
      have hins : dictInsert inner (pageKey j) dc = inner ++ [(pageKey j, dc)] :=
        dictInsert_eq_append inner (pageKey j) dc hnot
      have hacc2 : lookupKey
          (dictInsert acc alpha (PyVal.dict (dictInsert inner (pageKey j) dc))) alpha =
          some (PyVal.dict (dictInsert inner (pageKey j) dc)) :=
        lookupKey_dictInsert_self acc alpha _
      have hkeys2 : (dictInsert inner (pageKey j) dc).map Prod.fst =
          (List.range (j + 1)).map pageKey := by
        rw [hins, List.map_append, hkeys, List.range_succ, List.map_append]
        rfl
      obtain ⟨entries', h1', h2'⟩ := ih (j + 1) _ _ _ _ hacc2 hkeys2 hrun
      refine ⟨entries', h1', ?_⟩
      rw [h2']
      have hlen : j + 1 + rest.length = j + (button :: rest).length := by
        simp only [List.length_cons]
        omega
      rw [hlen]

/-- Claim C1: for every letter group whose button list has N elements,
the produced mapping for that letter has exactly N keys, `page_0`
through `page_{N-1}`, assigned positionally in the order the button
elements appear in the DOM list, and this order is preserved in the
output structure. -/
theorem letter_group_page_keys (env : Env) (alpha : String) (accordion_item : Nat)
    (buttons : List String) (belems : List Nat) (acc : List (String × PyVal))
    (tr : List Event) (acc' : List (String × PyVal))
    (hacc : lookupKey acc alpha = some (PyVal.dict []))
    (hrun : inner_pages_loop env alpha accordion_item buttons belems 0 acc =
      (tr, Except.ok acc')) :
    ∃ entries, lookupKey acc' alpha = some (PyVal.dict entries) ∧
      entries.map Prod.fst = (List.range belems.length).map pageKey ∧
      entries.length = belems.length := by
  obtain ⟨entries, h1, h2⟩ :=
    inner_pages_loop_shape env alpha accordion_item buttons belems 0 acc [] tr acc' hacc
      (by simp) hrun
  refine ⟨entries, h1, by simpa using h2, ?_⟩
  have hl := congrArg List.length h2
  simpa using hl

/-- The inner-loop run used in the C1 witness. -/
def innerRunC1 : M (List (String × PyVal)) :=
  inner_pages_loop twoUlEnv "A" 5 ["A0", "A1"] [10, 11] 0 [("A", PyVal.dict [])]

/-- The final accumulator of the C1 witness run. -/
def accC1 : List (String × PyVal) :=
  match innerRunC1.2 with
  | Except.ok a => a
  | Except.error _ => []

/-- Witness for C1: a concrete letter group with two buttons produces
exactly the keys `page_0`, `page_1` in order. -/
theorem letter_group_page_keys_witness :
    ∃ entries, lookupKey accC1 "A" = some (PyVal.dict entries) ∧
      entries.map Prod.fst = (List.range ([10, 11] : List Nat).length).map pageKey ∧
      entries.length = ([10, 11] : List Nat).length :=
  letter_group_page_keys twoUlEnv "A" 5 ["A0", "A1"] [10, 11] [("A", PyVal.dict [])]
    innerRunC1.1 accC1 rfl rfl

/-! ## Claim C7 -/

/-- Events other than the final JSON dump. -/
def notDump (ev : Event) : Bool := !ev.isDump

theorem click_alpha_no_dump (env : Env) (i element : Nat) :
    EmitsOnly notDump (click_alpha_navigation_button env i element) := by
  simp only [click_alpha_navigation_button]
  split
  · refine EmitsOnly.bindM (EmitsOnly.emitM rfl) (fun _ => ?_)
    refine EmitsOnly.bindM (EmitsOnly.emitM rfl) (fun _ => ?_)
    refine EmitsOnly.bindM (exec_emitsOnly (fun msg => rfl) _ _ _ _ _) (fun uls => ?_)
    refine EmitsOnly.bindM (findResult_index_emitsOnly _ _) (fun acc => ?_)
    refine EmitsOnly.bindM (exec_emitsOnly (fun msg => rfl) _ _ _ _ _) (fun btns => ?_)
    exact EmitsOnly.pureM _
  · refine EmitsOnly.bindM (EmitsOnly.pureM _) (fun _ => ?_)
    refine EmitsOnly.bindM (EmitsOnly.emitM rfl) (fun _ => ?_)
    refine EmitsOnly.bindM (exec_emitsOnly (fun msg => rfl) _ _ _ _ _) (fun uls => ?_)
    refine EmitsOnly.bindM (findResult_index_emitsOnly _ _) (fun acc => ?_)
    refine EmitsOnly.bindM (exec_emitsOnly (fun msg => rfl) _ _ _ _ _) (fun btns => ?_)
    exact EmitsOnly.pureM _

theorem process_no_dump (env : Env) (j : Nat) (element accordion_item : Nat)
    (buttons : List String) :
    EmitsOnly notDump (process_webpage_elements env j element accordion_item buttons) := by
  simp only [process_webpage_elements]
  split <;>
  · refine EmitsOnly.bindM ?_ (fun _ => ?_)
    · first
        | exact EmitsOnly.emitM rfl
        | exact EmitsOnly.pureM _
    · refine EmitsOnly.bindM (EmitsOnly.emitM rfl) (fun _ => ?_)
      refine EmitsOnly.bindM (listIndexM_emitsOnly _ _) (fun bt => ?_)
      refine EmitsOnly.bindM (exec_emitsOnly (fun msg => rfl) _ _ _ _ _) (fun tb => ?_)
      split
      · refine EmitsOnly.bindM (findResult_textAttr_emitsOnly _ _) (fun t => ?_)
        refine EmitsOnly.bindM (EmitsOnly.mpureM _) (fun y => ?_)
        refine EmitsOnly.bindM (exec_emitsOnly (fun msg => rfl) _ _ _ _ _) (fun ib => ?_)
        refine EmitsOnly.bindM (findResult_iterate_emitsOnly _) (fun boxes => ?_)
        refine EmitsOnly.bindM
          (download_images_emitsOnly (fun u => rfl) (fun p c => rfl) _ _ _ _) (fun im => ?_)
        exact EmitsOnly.pureM _
      · refine EmitsOnly.bindM (EmitsOnly.mpureM _) (fun y => ?_)
        refine EmitsOnly.bindM (exec_emitsOnly (fun msg => rfl) _ _ _ _ _) (fun ib => ?_)
        refine EmitsOnly.bindM (findResult_iterate_emitsOnly _) (fun boxes => ?_)
        refine EmitsOnly.bindM
          (download_images_emitsOnly (fun u => rfl) (fun p c => rfl) _ _ _ _) (fun im => ?_)
        exact EmitsOnly.pureM _

theorem inner_pages_loop_no_dump (env : Env) (alpha : String) (accordion_item : Nat)
    (buttons : List String) :
    ∀ (belems : List Nat) (j : Nat) (acc : List (String × PyVal)),
      EmitsOnly notDump (inner_pages_loop env alpha accordion_item buttons belems j acc) := by
  intro belems
  induction belems with
  | nil => intro j acc; exact EmitsOnly.mpureM _
  | cons button rest ih =>
      intro j acc
      simp only [inner_pages_loop]
      refine EmitsOnly.bindM (wait_until_clickable_emitsOnly _ _) (fun el => ?_)
      refine EmitsOnly.bindM (process_no_dump _ _ _ _ _) (fun dc => ?_)
      refine EmitsOnly.bindM (dictGetM_emitsOnly _ _) (fun iv => ?_)
      refine EmitsOnly.bindM (asDict_emitsOnly _) (fun inner => ?_)
      exact ih _ _

theorem outer_letters_loop_no_dump (env : Env) :
    ∀ (navs : List Nat) (i : Nat) (acc : List (String × PyVal)),
      EmitsOnly notDump (outer_letters_loop env navs i acc) := by
  intro navs
  induction navs with
  | nil => intro i acc; exact EmitsOnly.mpureM _
  | cons a_nav rest ih =>
      intro i acc
      simp only [outer_letters_loop]
      refine EmitsOnly.bindM (wait_until_clickable_emitsOnly _ _) (fun el => ?_)
      refine EmitsOnly.bindM (click_alpha_no_dump _ _ _) (fun pr => ?_)
      refine EmitsOnly.bindM (findResult_iterate_emitsOnly _) (fun belems => ?_)
      refine EmitsOnly.bindM (inner_pages_loop_no_dump _ _ _ _ _ _ _) (fun acc2 => ?_)
      exact ih _ _

theorem load_website_no_dump (env : Env) (url : String) :
    EmitsOnly notDump (load_website env url) := by
  simp only [load_website]
  refine EmitsOnly.bindM (EmitsOnly.emitM rfl) (fun _ => ?_)
  refine EmitsOnly.bindM (EmitsOnly.emitM rfl) (fun _ => ?_)
  refine EmitsOnly.bindM (EmitsOnly.emitM rfl) (fun _ => ?_)
  refine EmitsOnly.bindM (EmitsOnly.emitM rfl) (fun _ => ?_)
  refine EmitsOnly.bindM (exec_emitsOnly (fun msg => rfl) _ _ _ _ _) (fun mt => ?_)
  split
  · refine EmitsOnly.bindM (findResult_textAttr_emitsOnly _ _) (fun t => ?_)
    refine EmitsOnly.bindM (EmitsOnly.mpureM _) (fun ed => ?_)
    refine EmitsOnly.bindM (exec_emitsOnly (fun msg => rfl) _ _ _ _ _) (fun cf => ?_)
    refine EmitsOnly.bindM (wait_until_visible_emitsOnly _ _) (fun ifr => ?_)
    refine EmitsOnly.bindM (EmitsOnly.emitM rfl) (fun _ => ?_)
    refine EmitsOnly.bindM (exec_emitsOnly (fun msg => rfl) _ _ _ _ _) (fun uls => ?_)
    refine EmitsOnly.bindM (findResult_index_emitsOnly _ _) (fun ul0 => ?_)
    refine EmitsOnly.bindM (exec_emitsOnly (fun msg => rfl) _ _ _ _ _) (fun anf => ?_)
    refine EmitsOnly.bindM (findResult_iterate_emitsOnly _) (fun navs => ?_)
    refine EmitsOnly.bindM (outer_letters_loop_no_dump _ _ _ _) (fun ex => ?_)
    exact EmitsOnly.pureM _
  · refine EmitsOnly.bindM (EmitsOnly.mpureM _) (fun ed => ?_)
    refine EmitsOnly.bindM (exec_emitsOnly (fun msg => rfl) _ _ _ _ _) (fun cf => ?_)
    refine EmitsOnly.bindM (wait_until_visible_emitsOnly _ _) (fun ifr => ?_)
    refine EmitsOnly.bindM (EmitsOnly.emitM rfl) (fun _ => ?_)
    refine EmitsOnly.bindM (exec_emitsOnly (fun msg => rfl) _ _ _ _ _) (fun uls => ?_)
    refine EmitsOnly.bindM (findResult_index_emitsOnly _ _) (fun ul0 => ?_)
    refine EmitsOnly.bindM (exec_emitsOnly (fun msg => rfl) _ _ _ _ _) (fun anf => ?_)
    refine EmitsOnly.bindM (findResult_iterate_emitsOnly _) (fun navs => ?_)
    refine EmitsOnly.bindM (outer_letters_loop_no_dump _ _ _ _) (fun ex => ?_)
    exact EmitsOnly.pureM _

theorem make_img_dir_no_dump (env : Env) : EmitsOnly notDump (make_img_dir env) := by
  unfold make_img_dir
  split
  · exact EmitsOnly.mpureM _
  · exact EmitsOnly.emitM rfl

theorem make_img_dir_ok (env : Env) : (make_img_dir env).2 = Except.ok () := by
  unfold make_img_dir
  split <;> rfl

/-- Closed form of `start_extraction`: directory creation, driver start,
the extraction itself, and on success a quit plus one JSON dump. -/
theorem start_extraction_spec (env : Env) (url : String) :
    start_extraction env url =
      ((make_img_dir env).1 ++
        (if env.driverStarts then
          Event.startDriver ::
            ((load_website env url).1 ++
              (match (load_website env url).2 with
               | Except.ok v => [Event.quitDriver, Event.jsonDump jsonOutputPath v]
               | Except.error _ => []))
         else []),
       if env.driverStarts then
         (match (load_website env url).2 with
          | Except.ok _ => Except.ok ()
          | Except.error e => Except.error e)
       else Except.error PyError.webdriverError) := by
  by_cases hpe : env.pathExists "./images" = true <;>
    by_cases hds : env.driverStarts = true <;>
    · rcases hlw : load_website env url with ⟨t3, r3⟩
      cases r3 <;>
        simp [start_extraction, make_img_dir, start_webdriver, Bind.bind, M.bind, emitEv,
          Pure.pure, M.pure, raisePy, hpe, hds, hlw]

/-- Claim C7: the output JSON file is written exactly once, after all
extraction completes; if any unhandled error is raised at any point
before extraction finishes, the final JSON file is never written and no
partial extracted data is persisted to it. -/
theorem json_written_once_after_extraction (env : Env) (url : String) :
    (∀ tr, start_extraction env url = (tr, Except.ok ()) →
      ∃ v pre, (load_website env url).2 = Except.ok v ∧
        tr = pre ++ [Event.jsonDump jsonOutputPath v] ∧
        ∀ p w, Event.jsonDump p w ∉ pre) ∧
    (∀ tr e, start_extraction env url = (tr, Except.error e) →
      ∀ p w, Event.jsonDump p w ∉ tr) := by
  have hspec := start_extraction_spec env url
  constructor
  · intro tr hrun
    rw [hspec] at hrun
    by_cases hds : env.driverStarts = true
    · cases hlw : (load_website env url).2 with
      | ok v =>
          simp only [hds, eq_self_iff_true, if_true, hlw] at hrun
          refine ⟨v, (make_img_dir env).1 ++
            (Event.startDriver :: ((load_website env url).1 ++ [Event.quitDriver])), ?_, ?_, ?_⟩
          · rfl
          · have htr := congrArg Prod.fst hrun
            simp only at htr
            rw [← htr]
            simp [List.append_assoc, List.cons_append, List.singleton_append]
          · intro p w hm
            rcases List.mem_append.mp hm with hm | hm
            · have hh := make_img_dir_no_dump env _ hm
              simp [notDump, Event.isDump] at hh
            · rcases List.mem_cons.mp hm with hm | hm
              · simp at hm
              · rcases List.mem_append.mp hm with hm | hm
                · have hh := load_website_no_dump env url _ hm
                  simp [notDump, Event.isDump] at hh
                · simp at hm
      | error e' =>
          simp only [hds, eq_self_iff_true, if_true, hlw] at hrun
          have h2 := congrArg Prod.snd hrun
          simp at h2
    · rw [if_neg hds, if_neg hds] at hrun
      have h2 := congrArg Prod.snd hrun
      simp at h2
  · intro tr e hrun p w hmem
    rw [hspec] at hrun
    by_cases hds : env.driverStarts = true
    · cases hlw : (load_website env url).2 with
      | ok v =>
          simp only [hds, eq_self_iff_true, if_true, hlw] at hrun
          have h2 := congrArg Prod.snd hrun
          simp at h2
      | error e' =>
          simp only [hds, eq_self_iff_true, if_true, hlw] at hrun
          have h1 := congrArg Prod.fst hrun
          simp only at h1
          rw [← h1] at hmem
          rcases List.mem_append.mp hmem with hm | hm
          · have hh := make_img_dir_no_dump env _ hm
            simp [notDump, Event.isDump] at hh
          · rcases List.mem_cons.mp hm with hm | hm
            · simp at hm
            · rw [List.append_nil] at hm
              have hh := load_website_no_dump env url _ hm
              simp [notDump, Event.isDump] at hh
    · rw [if_neg hds, if_neg hds] at hrun
      have h1 := congrArg Prod.fst hrun
      simp only at h1
      rw [← h1] at hmem
      rw [List.append_nil] at hmem
      have hh := make_img_dir_no_dump env _ hmem
      simp [notDump, Event.isDump] at hh

/-- An environment on which the whole extraction succeeds: the page has
a `main` block, a visible iframe, two sibling `ul` lists and no letters. -/
def fullEnv : Env :=
  { baseEnv with
    findElement := fun _ _ _ => Except.ok 2
    findElements := fun s _ _ =>
      match s with
      | Scope.driver => Except.ok [3, 4]
      | Scope.elem _ => Except.ok [] }

/-- Witness for C7: a successful concrete run dumps exactly once at the
end; a failing concrete run never dumps. -/
theorem json_written_once_after_extraction_witness :
    (∃ v pre, (load_website fullEnv "u").2 = Except.ok v ∧
      (start_extraction fullEnv "u").1 = pre ++ [Event.jsonDump jsonOutputPath v] ∧
      ∀ p w, Event.jsonDump p w ∉ pre) ∧
    Event.jsonDump jsonOutputPath (PyVal.dict []) ∉ (start_extraction baseEnv "u").1 :=
  ⟨(json_written_once_after_extraction fullEnv "u").1 (start_extraction fullEnv "u").1 rfl,
   (json_written_once_after_extraction baseEnv "u").2 (start_extraction baseEnv "u").1
     PyError.attributeError rfl jsonOutputPath (PyVal.dict [])⟩

/-! ## Claim C9: a model of `json.dump(..., indent=True, ensure_ascii=False)`
and a JSON parser, with a round-trip proof -/

/-- Left curly bracket. -/
def lbrace : Char := Char.ofNat 123

/-- Right curly bracket. -/
def rbrace : Char := Char.ofNat 125

/-- The lowercase hex digit for `n < 16`. -/
def hexDigitChar (n : Nat) : Char :=
  if n < 10 then Char.ofNat (48 + n) else Char.ofNat (87 + n)

/-- Python json string escaping with `ensure_ascii=False`: only the
quote, the backslash and control characters are escaped; everything
else, non-ASCII included, is emitted literally. -/
def escapeChar (c : Char) : List Char :=
  if c = '"' then ['\\', '"']
  else if c = '\\' then ['\\', '\\']
  else if c = Char.ofNat 8 then ['\\', 'b']
  else if c = Char.ofNat 9 then ['\\', 't']
  else if c = Char.ofNat 10 then ['\\', 'n']
  else if c = Char.ofNat 12 then ['\\', 'f']
  else if c = Char.ofNat 13 then ['\\', 'r']
  else if c.toNat < 32 then
    ['\\', 'u', '0', '0', hexDigitChar (c.toNat / 16), hexDigitChar (c.toNat % 16)]
  else [c]

/-- Escape every character of a string body. -/
def escapeList : List Char → List Char
  | [] => []
  | c :: cs => escapeChar c ++ escapeList cs

/-- A rendered JSON string literal. -/
def renderString (s : String) : List Char :=
  '"' :: (escapeList s.data ++ ['"'])

/-- Newline followed by the indentation of depth `d` (indent string of
one space per level, as `indent=True` behaves in Python). -/
def nlIndent (d : Nat) : List Char := '\n' :: List.replicate d ' '

mutual

/-- Render a Python value as Python `json.dump` does with `indent=True`
and `ensure_ascii=False`. -/
def renderVal : Nat → PyVal → List Char
  | _, PyVal.str s => renderString s
  | _, PyVal.dict [] => [lbrace, rbrace]
  | d, PyVal.dict ((k, v) :: rest) =>
      lbrace :: (nlIndent (d + 1) ++ renderString k ++ ':' :: ' ' :: renderVal (d + 1) v
        ++ renderEntries (d + 1) rest ++ nlIndent d ++ [rbrace])
  | _, PyVal.list [] => ['[', ']']
  | d, PyVal.list (v :: rest) =>
      '[' :: (nlIndent (d + 1) ++ renderVal (d + 1) v ++ renderItems (d + 1) rest
        ++ nlIndent d ++ [']'])

/-- Render the second and following dict entries, each preceded by a
comma and the newline-indent. -/
def renderEntries : Nat → List (String × PyVal) → List Char
  | _, [] => []
  | d, (k, v) :: rest =>
      ',' :: (nlIndent d ++ renderString k ++ ':' :: ' ' :: renderVal d v
        ++ renderEntries d rest)

/-- Render the second and following list items. -/
def renderItems : Nat → List PyVal → List Char
  | _, [] => []
  | d, v :: rest => ',' :: (nlIndent d ++ renderVal d v ++ renderItems d rest)

end

/-- The text `json.dump` writes for a value. -/
def renderJson (v : PyVal) : String := String.mk (renderVal 0 v)

/-- JSON whitespace emitted by the renderer. -/
def isWs (c : Char) : Bool := c = ' ' || c = '\n'

/-- Drop leading whitespace. -/
def skipWs : List Char → List Char
  | [] => []
  | c :: cs => if isWs c then skipWs cs else c :: cs

/-- The value of a lowercase hex digit. -/
def hexVal (c : Char) : Option Nat :=
  if 48 ≤ c.toNat ∧ c.toNat ≤ 57 then some (c.toNat - 48)
  else if 97 ≤ c.toNat ∧ c.toNat ≤ 102 then some (c.toNat - 87)
  else none

/-- Invert a single-character escape. -/
def unescape1 (c : Char) : Option Char :=
  if c = '"' then some '"'
  else if c = '\\' then some '\\'
  else if c = 'b' then some (Char.ofNat 8)
  else if c = 't' then some (Char.ofNat 9)
  else if c = 'n' then some (Char.ofNat 10)
  else if c = 'f' then some (Char.ofNat 12)
  else if c = 'r' then some (Char.ofNat 13)
  else none

/-- Parse the body of a JSON string literal up to the closing quote. -/
def parseStringBody : Nat → List Char → Option (List Char × List Char)
  | 0, _ => none
  | _ + 1, [] => none
  | fuel + 1, c :: cs =>
      if c = '"' then some ([], cs)
      else if c = '\\' then
        match cs with
        | [] => none
        | e :: cs2 =>
            if e = 'u' then
              match cs2 with
              | h1 :: h2 :: h3 :: h4 :: cs3 =>
                  match hexVal h1, hexVal h2, hexVal h3, hexVal h4 with
                  | some a, some b, some c3, some d4 =>
                      match parseStringBody fuel cs3 with
                      | some (s, rest) =>
                          some (Char.ofNat (((a * 16 + b) * 16 + c3) * 16 + d4) :: s, rest)
                      | none => none
                  | _, _, _, _ => none
              | _ => none
            else
              match unescape1 e with
              | some c' =>
                  match parseStringBody fuel cs2 with
                  | some (s, rest) => some (c' :: s, rest)
                  | none => none
              | none => none
      else
        match parseStringBody fuel cs with
        | some (s, rest) => some (c :: s, rest)
        | none => none

mutual

/-- Parse one JSON value (string, object or array). -/
def parseVal : Nat → List Char → Option (PyVal × List Char)
  | 0, _ => none
  | fuel + 1, input =>
      match skipWs input with
      | [] => none
      | c :: cs =>
          if c = '"' then
            match parseStringBody (cs.length + 1) cs with
            | some (s, rest) => some (PyVal.str (String.mk s), rest)
            | none => none
          else if c = lbrace then
            match skipWs cs with
            | c2 :: cs2 =>
                if c2 = rbrace then some (PyVal.dict [], cs2)
                else
                  match parseEntry fuel (c2 :: cs2) with
                  | some (kv, rest) =>
                      match parseEntriesTail fuel rest with
                      | some (es, rest2) => some (PyVal.dict (kv :: es), rest2)
                      | none => none
                  | none => none
            | [] => none
          else if c = '[' then
            match skipWs cs with
            | c2 :: cs2 =>
                if c2 = ']' then some (PyVal.list [], cs2)
                else
                  match parseVal fuel (c2 :: cs2) with
                  | some (v, rest) =>
                      match parseItemsTail fuel rest with
                      | some (vs, rest2) => some (PyVal.list (v :: vs), rest2)
                      | none => none
                  | none => none
            | [] => none
          else none

/-- Parse one `"key": value` pair. -/
def parseEntry : Nat → List Char → Option ((String × PyVal) × List Char)
  | 0, _ => none
  | fuel + 1, input =>
      match skipWs input with
      | c :: cs =>
          if c = '"' then
            match parseStringBody (cs.length + 1) cs with
            | some (k, rest) =>
                match skipWs rest with
                | ':' :: rest2 =>
                    match parseVal fuel rest2 with
                    | some (v, rest3) => some ((String.mk k, v), rest3)
                    | none => none
                | _ => none
            | none => none
          else none
      | [] => none

/-- Parse `, "key": value` pairs until the closing brace. -/
def parseEntriesTail : Nat → List Char → Option (List (String × PyVal) × List Char)
  | 0, _ => none
  | fuel + 1, input =>
      match skipWs input with
      | c :: cs =>
          if c = ',' then
            match parseEntry fuel cs with
            | some (kv, rest) =>
                match parseEntriesTail fuel rest with
                | some (es, rest2) => some (kv :: es, rest2)
                | none => none
            | none => none
          else if c = rbrace then some ([], cs)
          else none
      | [] => none

/-- Parse `, value` items until the closing bracket. -/
def parseItemsTail : Nat → List Char → Option (List PyVal × List Char)
  | 0, _ => none
  | fuel + 1, input =>
      match skipWs input with
      | c :: cs =>
          if c = ',' then
            match parseVal fuel cs with
            | some (v, rest) =>
                match parseItemsTail fuel rest with
                | some (vs, rest2) => some (v :: vs, rest2)
                | none => none
            | none => none
          else if c = ']' then some ([], cs)
          else none
      | [] => none

end

/-- Parse a whole JSON document. -/
def parseJson (s : String) : Option PyVal :=
  match parseVal (s.length + 1) s.data with
  | some (v, rest) => if (skipWs rest).isEmpty then some v else none
  | none => none

mutual

/-- Parser fuel sufficient for a value. -/
def pvFuel : PyVal → Nat
  | PyVal.str _ => 1
  | PyVal.dict [] => 1
  | PyVal.dict ((_, v) :: rest) => 1 + max (1 + pvFuel v) (entriesFuel rest)
  | PyVal.list [] => 1
  | PyVal.list (v :: rest) => 1 + max (pvFuel v) (itemsFuel rest)

/-- Parser fuel sufficient for a dict tail. -/
def entriesFuel : List (String × PyVal) → Nat
  | [] => 1
  | (_, v) :: rest => 1 + max (1 + pvFuel v) (entriesFuel rest)

/-- Parser fuel sufficient for a list tail. -/
def itemsFuel : List PyVal → Nat
  | [] => 1
  | v :: rest => 1 + max (pvFuel v) (itemsFuel rest)

end

/-! ### String-level round trip -/

theorem hexVal_hexDigitChar (n : Nat) (h : n < 16) : hexVal (hexDigitChar n) = some n := by
  interval_cases n <;> decide


theorem escapeChar_quote : escapeChar '"' = ['\\', '"'] := rfl

theorem escapeChar_backslash : escapeChar '\\' = ['\\', '\\'] := rfl

theorem parseStringBody_round :
    ∀ (l : List Char) (rest : List Char) (F : Nat), (escapeList l).length < F →
      parseStringBody F (escapeList l ++ '"' :: rest) = some (l, rest) := by
  intro l
  induction l with
  | nil =>
      intro rest F hF
      cases F with
      | zero => omega
      | succ F => simp [escapeList, parseStringBody]
  | cons c cs ih =>
      intro rest F hF
      simp only [escapeList, List.length_append] at hF
      simp only [escapeList]
      by_cases h1 : c = '"'
      · subst h1
        rw [escapeChar_quote] at hF ⊢
        simp only [List.length_cons, List.length_nil] at hF
        cases F with
        | zero => omega
        | succ F =>
            simp only [List.cons_append, List.nil_append]
            simp +decide only [parseStringBody, unescape1, if_true, if_false, List.append_eq, List.nil_append, List.cons_append]
            rw [ih rest F (by omega)]
      · by_cases h2 : c = '\\'
        · subst h2
          rw [escapeChar_backslash] at hF ⊢
          simp only [List.length_cons, List.length_nil] at hF
          cases F with
          | zero => omega
          | succ F =>
              simp only [List.cons_append, List.nil_append]
              simp +decide only [parseStringBody, unescape1, if_true, if_false, List.append_eq, List.nil_append, List.cons_append]
              rw [ih rest F (by omega)]
        · by_cases h3 : c = Char.ofNat 8
          · subst h3
            rw [show escapeChar (Char.ofNat 8) = ['\\', 'b'] from rfl] at hF ⊢
            simp only [List.length_cons, List.length_nil] at hF
            cases F with
            | zero => omega
            | succ F =>
                simp only [List.cons_append, List.nil_append]
                simp +decide only [parseStringBody, unescape1, if_true, if_false, List.append_eq, List.nil_append, List.cons_append]
                rw [ih rest F (by omega)]
          · by_cases h4 : c = Char.ofNat 9
            · subst h4
              rw [show escapeChar (Char.ofNat 9) = ['\\', 't'] from rfl] at hF ⊢
              simp only [List.length_cons, List.length_nil] at hF
              cases F with
              | zero => omega
              | succ F =>
                  simp only [List.cons_append, List.nil_append]
                  simp +decide only [parseStringBody, unescape1, if_true, if_false, List.append_eq, List.nil_append, List.cons_append]
                  rw [ih rest F (by omega)]
            · by_cases h5 : c = Char.ofNat 10
              · subst h5
                rw [show escapeChar (Char.ofNat 10) = ['\\', 'n'] from rfl] at hF ⊢
                simp only [List.length_cons, List.length_nil] at hF
                cases F with
                | zero => omega
                | succ F =>
                    simp only [List.cons_append, List.nil_append]
                    simp +decide only [parseStringBody, unescape1, if_true, if_false, List.append_eq, List.nil_append, List.cons_append]
                    rw [ih rest F (by omega)]
              · by_cases h6 : c = Char.ofNat 12
                · subst h6
                  rw [show escapeChar (Char.ofNat 12) = ['\\', 'f'] from rfl] at hF ⊢
                  simp only [List.length_cons, List.length_nil] at hF
                  cases F with
                  | zero => omega
                  | succ F =>
                      simp only [List.cons_append, List.nil_append]
                      simp +decide only [parseStringBody, unescape1, if_true, if_false, List.append_eq, List.nil_append, List.cons_append]
                      rw [ih rest F (by omega)]
                · by_cases h7 : c = Char.ofNat 13
                  · subst h7
                    rw [show escapeChar (Char.ofNat 13) = ['\\', 'r'] from rfl] at hF ⊢
                    simp only [List.length_cons, List.length_nil] at hF
                    cases F with
                    | zero => omega
                    | succ F =>
                        simp only [List.cons_append, List.nil_append]
                        simp +decide only [parseStringBody, unescape1, if_true, if_false, List.append_eq, List.nil_append, List.cons_append]
                        rw [ih rest F (by omega)]
                  · by_cases h8 : c.toNat < 32
                    · have hesc : escapeChar c = ['\\', 'u', '0', '0',
                          hexDigitChar (c.toNat / 16), hexDigitChar (c.toNat % 16)] := by
                        unfold escapeChar
                        rw [if_neg h1, if_neg h2, if_neg h3, if_neg h4, if_neg h5, if_neg h6,
                          if_neg h7, if_pos h8]
                      rw [hesc] at hF ⊢
                      simp only [List.length_cons, List.length_nil] at hF
                      cases F with
                      | zero => omega
                      | succ F =>
                          simp only [List.cons_append, List.nil_append]
                          simp +decide only [parseStringBody, if_true, if_false, List.append_eq, List.nil_append, List.cons_append]
                          rw [show hexVal '0' = some 0 from rfl,
                            hexVal_hexDigitChar (c.toNat / 16) (by omega),
                            hexVal_hexDigitChar (c.toNat % 16) (by omega)]
                          rw [ih rest F (by omega)]
                          have hval : ((0 * 16 + 0) * 16 + c.toNat / 16) * 16 + c.toNat % 16 =
                              c.toNat := by omega
                          simp only [hval, Char.ofNat_toNat]
                    · have hesc : escapeChar c = [c] := by
                        unfold escapeChar
                        rw [if_neg h1, if_neg h2, if_neg h3, if_neg h4, if_neg h5, if_neg h6,
                          if_neg h7, if_neg h8]
                      rw [hesc] at hF ⊢
                      simp only [List.length_cons, List.length_nil] at hF
                      cases F with
                      | zero => omega
                      | succ F =>
                          simp only [List.cons_append, List.nil_append, List.append_eq,
                            parseStringBody]
                          rw [if_neg h1, if_neg h2]
                          rw [ih rest F (by omega)]

/-! ### Whitespace and head-character lemmas -/

theorem skipWs_append_ws (W : List Char) (hW : ∀ c ∈ W, isWs c = true) (x : List Char) :
    skipWs (W ++ x) = skipWs x := by
  induction W with
  | nil => rfl
  | cons c cs ih =>
      simp only [List.cons_append, skipWs]
      rw [if_pos (hW c (by simp))]
      exact ih (fun c' hc' => hW c' (by simp [hc']))

theorem skipWs_cons_of_not_ws (c : Char) (cs : List Char) (h : isWs c = false) :
    skipWs (c :: cs) = c :: cs := by
  simp [skipWs, h]

theorem nlIndent_ws (d : Nat) : ∀ c ∈ nlIndent d, isWs c = true := by
  intro c hc
  simp only [nlIndent, List.mem_cons] at hc
  rcases hc with rfl | hc
  · rfl
  · rw [List.eq_of_mem_replicate hc]
    rfl

theorem space_ws : ∀ c ∈ [' '], isWs c = true := by decide

theorem skipWs_renderVal (d : Nat) (v : PyVal) (rest : List Char) :
    skipWs (renderVal d v ++ rest) = renderVal d v ++ rest := by
  cases v with
  | str s =>
      simp only [renderVal, renderString, List.cons_append]
      exact skipWs_cons_of_not_ws _ _ (by decide)
  | dict es =>
      cases es with
      | nil =>
          simp only [renderVal, List.cons_append]
          exact skipWs_cons_of_not_ws _ _ (by decide)
      | cons kv es' =>
          rcases kv with ⟨k, v'⟩
          simp only [renderVal, List.cons_append]
          exact skipWs_cons_of_not_ws _ _ (by decide)
  | list es =>
      cases es with
      | nil =>
          simp only [renderVal, List.cons_append]
          exact skipWs_cons_of_not_ws _ _ (by decide)
      | cons v' es' =>
          simp only [renderVal, List.cons_append]
          exact skipWs_cons_of_not_ws _ _ (by decide)

theorem pvFuel_pos (v : PyVal) : 1 ≤ pvFuel v := by
  cases v with
  | str s => simp [pvFuel]
  | dict es =>
      cases es with
      | nil => simp [pvFuel]
      | cons kv r =>
          rcases kv with ⟨k, v'⟩
          simp only [pvFuel]
          omega
  | list es =>
      cases es with
      | nil => simp [pvFuel]
      | cons v' r =>
          simp only [pvFuel]
          omega

theorem entriesFuel_pos (es : List (String × PyVal)) : 1 ≤ entriesFuel es := by
  cases es with
  | nil => simp [entriesFuel]
  | cons kv r =>
      rcases kv with ⟨k, v'⟩
      simp only [entriesFuel]
      omega

theorem itemsFuel_pos (es : List PyVal) : 1 ≤ itemsFuel es := by
  cases es with
  | nil => simp [itemsFuel]
  | cons v' r =>
      simp only [itemsFuel]
      omega

theorem nil_ws : ∀ c ∈ ([] : List Char), isWs c = true := by
  intro c hc
  simp at hc

theorem renderVal_head (d : Nat) (v : PyVal) :
    ∃ c0 cs0, renderVal d v = c0 :: cs0 ∧ isWs c0 = false ∧ c0 ≠ ']' ∧ c0 ≠ rbrace := by
  cases v with
  | str s => exact ⟨'"', _, rfl, by decide, by decide, by decide⟩
  | dict es =>
      cases es with
      | nil => exact ⟨lbrace, _, rfl, by decide, by decide, by decide⟩
      | cons kv es' =>
          rcases kv with ⟨k, v'⟩
          exact ⟨lbrace, _, rfl, by decide, by decide, by decide⟩
  | list es =>
      cases es with
      | nil => exact ⟨'[', _, rfl, by decide, by decide, by decide⟩
      | cons v' es' => exact ⟨'[', _, rfl, by decide, by decide, by decide⟩

/-- Statement: the parser inverts the renderer on values, given fuel. -/
def ParseValOK (F : Nat) : Prop :=
  ∀ (v : PyVal) (d : Nat) (rest W : List Char), (∀ c ∈ W, isWs c = true) →
    pvFuel v ≤ F → parseVal F (W ++ (renderVal d v ++ rest)) = some (v, rest)

/-- Statement: the parser inverts the renderer on key-value pairs. -/
def ParseEntryOK (F : Nat) : Prop :=
  ∀ (k : String) (v : PyVal) (d : Nat) (rest W : List Char), (∀ c ∈ W, isWs c = true) →
    1 + pvFuel v ≤ F →
    parseEntry F (W ++ (renderString k ++ ':' :: ' ' :: renderVal d v ++ rest)) =
      some ((k, v), rest)

/-- Statement: the parser inverts the renderer on dict tails. -/
def ParseEntriesOK (F : Nat) : Prop :=
  ∀ (es : List (String × PyVal)) (d d2 : Nat) (rest W : List Char),
    (∀ c ∈ W, isWs c = true) → entriesFuel es ≤ F →
    parseEntriesTail F (W ++ (renderEntries d es ++ nlIndent d2 ++ rbrace :: rest)) =
      some (es, rest)

/-- Statement: the parser inverts the renderer on list tails. -/
def ParseItemsOK (F : Nat) : Prop :=
  ∀ (es : List PyVal) (d d2 : Nat) (rest W : List Char),
    (∀ c ∈ W, isWs c = true) → itemsFuel es ≤ F →
    parseItemsTail F (W ++ (renderItems d es ++ nlIndent d2 ++ ']' :: rest)) =
      some (es, rest)

theorem parse_render_ok :
    ∀ F, ParseValOK F ∧ ParseEntryOK F ∧ ParseEntriesOK F ∧ ParseItemsOK F := by
  intro F
  induction F with
  | zero =>
      refine ⟨?_, ?_, ?_, ?_⟩
      · intro v d rest W hW hfuel
        have := pvFuel_pos v
        omega
      · intro k v d rest W hW hfuel
        have := pvFuel_pos v
        omega
      · intro es d d2 rest W hW hfuel
        have := entriesFuel_pos es
        omega
      · intro es d d2 rest W hW hfuel
        have := itemsFuel_pos es
        omega
  | succ F ih =>
      obtain ⟨ihP, ihQ, ihR, ihS⟩ := ih
      refine ⟨?_, ?_, ?_, ?_⟩
      · -- ParseValOK (F + 1)
        intro v d rest W hW hfuel
        simp only [parseVal]
        rw [skipWs_append_ws W hW, skipWs_renderVal]
        cases v with
        | str s =>
            simp only [renderVal, renderString, List.cons_append, List.append_assoc,
              List.singleton_append, List.nil_append]
            simp +decide only [if_true, if_false]
            rw [parseStringBody_round s.data rest _
              (by simp only [List.length_append, List.length_cons]; omega)]
        | dict es =>
            cases es with
            | nil =>
                simp only [renderVal, List.cons_append, List.nil_append]
                simp +decide only [if_true, if_false]
                rw [skipWs_cons_of_not_ws _ _ (by decide)]
                simp +decide only [if_true, if_false]
            | cons kv es' =>
                rcases kv with ⟨k, v'⟩
                simp only [pvFuel] at hfuel
                simp only [renderVal, List.cons_append, List.append_assoc,
                  List.singleton_append, List.nil_append]
                simp +decide only [if_true, if_false]
                rw [skipWs_append_ws _ (nlIndent_ws _)]
                simp only [renderString, List.cons_append, List.append_assoc,
                  List.singleton_append, List.nil_append]
                rw [skipWs_cons_of_not_ws _ _ (by decide)]
                simp +decide only [if_true, if_false]
                have hq := ihQ k v' (d + 1)
                  (renderEntries (d + 1) es' ++ (nlIndent d ++ rbrace :: rest)) []
                  nil_ws (by omega)
                simp only [List.nil_append, renderString, List.cons_append,
                  List.append_assoc, List.singleton_append] at hq
                rw [hq]
                have hr := ihR es' (d + 1) d rest [] nil_ws (by omega)
                simp only [List.nil_append, List.append_assoc] at hr
                simp only [hr]
        | list es =>
            cases es with
            | nil =>
                simp only [renderVal, List.cons_append, List.nil_append]
                simp +decide only [if_true, if_false]
                rw [skipWs_cons_of_not_ws _ _ (by decide)]
                simp +decide only [if_true, if_false]
            | cons v' es' =>
                simp only [pvFuel] at hfuel
                simp only [renderVal, List.cons_append, List.append_assoc,
                  List.singleton_append, List.nil_append]
                simp +decide only [if_true, if_false]
                rw [skipWs_append_ws _ (nlIndent_ws _)]
                obtain ⟨c0, cs0, hrv, hw0, hne, _⟩ := renderVal_head (d + 1) v'
                rw [hrv]
                simp only [List.cons_append]
                rw [skipWs_cons_of_not_ws _ _ hw0]
                simp only [if_neg hne]
                have hp := ihP v' (d + 1)
                  (renderItems (d + 1) es' ++ (nlIndent d ++ ']' :: rest)) []
                  nil_ws (by omega)
                simp only [List.nil_append, List.append_assoc] at hp
                rw [hrv] at hp
                simp only [List.cons_append] at hp
                rw [hp]
                have hs := ihS es' (d + 1) d rest [] nil_ws (by omega)
                simp only [List.nil_append, List.append_assoc] at hs
                simp only [hs]
      · -- ParseEntryOK (F + 1)
        intro k v d rest W hW hfuel
        simp only [parseEntry]
        rw [skipWs_append_ws W hW]
        simp only [renderString, List.cons_append, List.append_assoc,
          List.singleton_append, List.nil_append]
        rw [skipWs_cons_of_not_ws _ _ (by decide)]
        simp +decide only [if_true, if_false]
        rw [parseStringBody_round k.data (':' :: ' ' :: (renderVal d v ++ rest)) _
          (by simp only [List.length_append, List.length_cons]; omega)]
        have hp := ihP v d rest [' '] space_ws (by omega)
        simp only [List.singleton_append] at hp
        simp +decide only
          [skipWs_cons_of_not_ws ':' (' ' :: (renderVal d v ++ rest)) (by decide), hp]
      · -- ParseEntriesOK (F + 1)
        intro es d d2 rest W hW hfuel
        cases es with
        | nil =>
            simp only [parseEntriesTail, renderEntries, List.nil_append, List.append_assoc]
            rw [skipWs_append_ws W hW, skipWs_append_ws _ (nlIndent_ws _)]
            rw [skipWs_cons_of_not_ws _ _ (by decide)]
            simp +decide only [if_true, if_false]
        | cons kv es' =>
            rcases kv with ⟨k, v'⟩
            simp only [entriesFuel] at hfuel
            simp only [parseEntriesTail, renderEntries, List.cons_append, List.append_assoc]
            rw [skipWs_append_ws W hW]
            rw [skipWs_cons_of_not_ws _ _ (by decide)]
            simp +decide only [if_true, if_false]
            have hq := ihQ k v' d
              (renderEntries d es' ++ (nlIndent d2 ++ rbrace :: rest)) (nlIndent d)
              (nlIndent_ws d) (by omega)
            simp only [List.cons_append, List.append_assoc] at hq
            simp only [hq]
            have hr := ihR es' d d2 rest [] nil_ws (by omega)
            simp only [List.nil_append, List.append_assoc] at hr
            simp only [hr]
      · -- ParseItemsOK (F + 1)
        intro es d d2 rest W hW hfuel
        cases es with
        | nil =>
            simp only [parseItemsTail, renderItems, List.nil_append, List.append_assoc]
            rw [skipWs_append_ws W hW, skipWs_append_ws _ (nlIndent_ws _)]
            rw [skipWs_cons_of_not_ws _ _ (by decide)]
            simp +decide only [if_true, if_false]
        | cons v' es' =>
            simp only [itemsFuel] at hfuel
            simp only [parseItemsTail, renderItems, List.cons_append, List.append_assoc]
            rw [skipWs_append_ws W hW]
            rw [skipWs_cons_of_not_ws _ _ (by decide)]
            simp +decide only [if_true, if_false]
            have hp := ihP v' d
              (renderItems d es' ++ (nlIndent d2 ++ ']' :: rest)) (nlIndent d)
              (nlIndent_ws d) (by omega)
            simp only [List.cons_append, List.append_assoc] at hp
            simp only [hp]
            have hs := ihS es' d d2 rest [] nil_ws (by omega)
            simp only [List.nil_append, List.append_assoc] at hs
            simp only [hs]

mutual

theorem pvFuel_le_renderVal : ∀ (v : PyVal) (d : Nat), pvFuel v ≤ (renderVal d v).length
  | PyVal.str s, d => by
      simp only [pvFuel, renderVal, renderString, List.length_cons, List.length_append]
      omega
  | PyVal.dict [], d => by
      simp only [pvFuel, renderVal, List.length_cons, List.length_nil]
      omega
  | PyVal.dict ((k, v) :: rest), d => by
      have h1 := pvFuel_le_renderVal v (d + 1)
      have h2 := entriesFuel_le_renderEntries rest (d + 1)
      simp only [pvFuel, renderVal, List.length_cons, List.length_append, nlIndent,
        List.length_replicate, renderString, List.length_nil]
      omega
  | PyVal.list [], d => by
      simp only [pvFuel, renderVal, List.length_cons, List.length_nil]
      omega
  | PyVal.list (v :: rest), d => by
      have h1 := pvFuel_le_renderVal v (d + 1)
      have h2 := itemsFuel_le_renderItems rest (d + 1)
      simp only [pvFuel, renderVal, List.length_cons, List.length_append, nlIndent,
        List.length_replicate, List.length_nil]
      omega

theorem entriesFuel_le_renderEntries : ∀ (es : List (String × PyVal)) (d : Nat),
    entriesFuel es ≤ (renderEntries d es).length + 1
  | [], d => by simp [entriesFuel, renderEntries]
  | (k, v) :: rest, d => by
      have h1 := pvFuel_le_renderVal v d
      have h2 := entriesFuel_le_renderEntries rest d
      simp only [entriesFuel, renderEntries, List.length_cons, List.length_append, nlIndent,
        List.length_replicate, renderString, List.length_nil]
      omega

theorem itemsFuel_le_renderItems : ∀ (es : List PyVal) (d : Nat),
    itemsFuel es ≤ (renderItems d es).length + 1
  | [], d => by simp [itemsFuel, renderItems]
  | v :: rest, d => by
      have h1 := pvFuel_le_renderVal v d
      have h2 := itemsFuel_le_renderItems rest d
      simp only [itemsFuel, renderItems, List.length_cons, List.length_append, nlIndent,
        List.length_replicate, List.length_nil]
      omega

end

/-- The parser inverts the renderer: the written JSON text parses back
to exactly the in-memory structure. -/
theorem parse_render_roundtrip (v : PyVal) : parseJson (renderJson v) = some v := by
  unfold parseJson renderJson
  have hP := (parse_render_ok ((String.mk (renderVal 0 v)).length + 1)).1
  have hb : (String.mk (renderVal 0 v)).length = (renderVal 0 v).length := rfl
  have h := hP v 0 [] [] nil_ws (by
    have hl := pvFuel_le_renderVal v 0
    omega)
  simp only [List.nil_append, List.append_nil] at h
  rw [show (String.mk (renderVal 0 v)).data = renderVal 0 v from rfl]
  rw [h]
  simp [skipWs]

/-! ## The shape of the dumped value (claim C9) -/

/-- Whether a value is a plain string. -/
def isStrB : PyVal → Bool
  | PyVal.str _ => true
  | _ => false

/-- Whether a value is a list of strings. -/
def isStrListB : PyVal → Bool
  | PyVal.list es => es.all isStrB
  | _ => false

/-- One key-value pair allowed in an Entry: `header` mapped to a string,
`text` mapped to a string, or `images` mapped to a list of strings. -/
def entryKeyShapeB (kv : String × PyVal) : Bool :=
  (kv.1 == "header" && isStrB kv.2) ||
  (kv.1 == "text" && isStrB kv.2) ||
  (kv.1 == "images" && isStrListB kv.2)

/-- The Entry shape of the data model: a dict whose pairs are all of the
allowed forms, with `header` and `images` present (`text` optional). -/
def entryShapeB : PyVal → Bool
  | PyVal.dict es =>
      es.all entryKeyShapeB && (lookupKey es "header").isSome && (lookupKey es "images").isSome
  | _ => false

/-- Whether a string is a page key: `page_` followed by decimal digits. -/
def isPageKeyB (s : String) : Bool :=
  match s.data with
  | 'p' :: 'a' :: 'g' :: 'e' :: '_' :: ds => !ds.isEmpty && ds.all isDecimalDigit
  | _ => false

/-- A top-level pair of the claimed shape: a letter label mapped to a
dict from page keys to entries. -/
def letterKvB (kv : String × PyVal) : Bool :=
  match kv.2 with
  | PyVal.dict pages => pages.all (fun p => isPageKeyB p.1 && entryShapeB p.2)
  | _ => false

/-- The claimed shape of the dumped value: a mapping from letter labels
to mappings from page keys to entries. -/
def extractionShapeB : PyVal → Bool
  | PyVal.dict letters => letters.all letterKvB
  | _ => false

/-- A top-level pair of the amended shape: additionally the key `main`
may be mapped to a plain string. -/
def amendedKvB (kv : String × PyVal) : Bool :=
  (kv.1 == "main" && isStrB kv.2) || letterKvB kv

/-- The amended shape: the claimed shape with a top-level `main` string
entry also allowed. -/
def extractionShapeAmendedB : PyVal → Bool
  | PyVal.dict letters => letters.all amendedKvB
  | _ => false

theorem all_dictInsert (P : String × PyVal → Bool) (d : List (String × PyVal))
    (k : String) (v : PyVal) (hd : d.all P = true) (hkv : P (k, v) = true) :
    (dictInsert d k v).all P = true := by
  induction d with
  | nil => simp [dictInsert, hkv]
  | cons kv0 rest ih =>
      rcases kv0 with ⟨k0, w⟩
      simp only [List.all_cons, Bool.and_eq_true] at hd
      by_cases h : k0 = k
      · subst h
        simp [dictInsert, hkv, hd.2]
      · simp [dictInsert, h, hd.1, ih hd.2]

theorem all_lookupKey (P : String × PyVal → Bool) (d : List (String × PyVal))
    (k : String) (v : PyVal) (hd : d.all P = true) (hlk : lookupKey d k = some v) :
    P (k, v) = true := by
  induction d with
  | nil => simp [lookupKey] at hlk
  | cons kv0 rest ih =>
      rcases kv0 with ⟨k0, w⟩
      simp only [List.all_cons, Bool.and_eq_true] at hd
      by_cases h : k0 = k
      · subst h
        simp only [lookupKey, if_pos rfl] at hlk
        obtain rfl := Option.some.inj hlk
        exact hd.1
      · simp only [lookupKey, if_neg h] at hlk
        exact ih hd.2 hlk

theorem toDigitsCore_length_ge (fuel : Nat) : ∀ (n : Nat) (ds : List Char),
    ds.length ≤ (Nat.toDigitsCore 10 fuel n ds).length := by
  induction fuel with
  | zero => intro n ds; simp [Nat.toDigitsCore]
  | succ f ih =>
      intro n ds
      simp only [Nat.toDigitsCore]
      by_cases h10 : n / 10 = 0
      · rw [if_pos h10]
        simp
      · rw [if_neg h10]
        have h := ih (n / 10) (Nat.digitChar (n % 10) :: ds)
        simp only [List.length_cons] at h
        omega

theorem repr_data_ne_nil (n : Nat) : (Nat.repr n).data ≠ [] := by
  have h : 1 ≤ (Nat.toDigits 10 n).length := by
    simp only [Nat.toDigits, Nat.toDigitsCore]
    by_cases h10 : n / 10 = 0
    · rw [if_pos h10]
      simp
    · rw [if_neg h10]
      have h := toDigitsCore_length_ge n (n / 10) [Nat.digitChar (n % 10)]
      simp only [List.length_cons, List.length_nil] at h
      omega
  intro he
  have hdata : (Nat.repr n).data = Nat.toDigits 10 n := by
    simp [Nat.repr, List.asString]
  rw [hdata] at he
  rw [he] at h
  simp at h

theorem isPageKeyB_pageKey (j : Nat) : isPageKeyB (pageKey j) = true := by
  have hdata : (pageKey j).data = 'p' :: 'a' :: 'g' :: 'e' :: '_' :: (Nat.repr j).data := rfl
  have hall : (Nat.repr j).data.all isDecimalDigit = true := by
    rw [List.all_eq_true]
    intro c hc
    exact repr_digits j c hc
  cases hrd : (Nat.repr j).data with
  | nil => exact absurd hrd (repr_data_ne_nil j)
  | cons c cs =>
      rw [hrd] at hall
      simp only [isPageKeyB, hdata, hrd, hall, List.isEmpty_cons, Bool.not_false, Bool.true_and]

theorem process_entryShape (env : Env) (j : Nat) (element accordion_item : Nat)
    (buttons : List String) (tr : List Event) (d : PyVal)
    (hrun : process_webpage_elements env j element accordion_item buttons = (tr, Except.ok d)) :
    entryShapeB d = true := by
  obtain ⟨bt, boxes, y, pre, hbt, hboxes, hy, hd, htr, hpre⟩ :=
    process_webpage_elements_run env j element accordion_item buttons tr d hrun
  rcases hy with hy | ⟨t, hy⟩ <;> subst hy <;> subst hd <;>
    simp +decide [entryShapeB, dictInsert, lookupKey, entryKeyShapeB, isStrB, isStrListB,
      List.all_map, Function.comp]

theorem inner_pages_loop_shapeInv (env : Env) (alpha : String) (accordion_item : Nat)
    (buttons : List String) :
    ∀ (belems : List Nat) (j : Nat) (acc : List (String × PyVal)) (tr : List Event)
      (res : List (String × PyVal)),
      inner_pages_loop env alpha accordion_item buttons belems j acc = (tr, Except.ok res) →
      acc.all amendedKvB = true → res.all amendedKvB = true := by
  intro belems
  induction belems with
  | nil =>
      intro j acc tr res hrun hacc
      simp only [inner_pages_loop] at hrun
      rw [M.mpure_ok] at hrun
      obtain ⟨rfl, rfl⟩ := hrun
      exact hacc
  | cons button rest ih =>
      intro j acc tr res hrun hacc
      simp only [inner_pages_loop] at hrun
      rw [M.bind_ok] at hrun
      obtain ⟨t1, el, t2, h1, hrun, rfl⟩ := hrun
      rw [M.bind_ok] at hrun
      obtain ⟨t3, dc, t4, h2, hrun, rfl⟩ := hrun
      rw [M.bind_ok] at hrun
      obtain ⟨t5, innerVal, t6, h3, hrun, rfl⟩ := hrun
      obtain ⟨rfl, hlk⟩ := dictGetM_ok acc alpha t5 innerVal h3
      rw [M.bind_ok] at hrun
      obtain ⟨t7, inner, t8, h4, hrun, rfl⟩ := hrun
      obtain ⟨rfl, hiv⟩ := asDict_ok innerVal t7 inner h4
      subst hiv
      have hdc : entryShapeB dc = true :=
        process_entryShape env j el accordion_item buttons t3 dc h2
      have hP : amendedKvB (alpha, PyVal.dict inner) = true :=
        all_lookupKey _ acc alpha _ hacc hlk
      have hpages : inner.all (fun p => isPageKeyB p.1 && entryShapeB p.2) = true := by
        simp only [amendedKvB, isStrB, Bool.and_false, Bool.false_or, letterKvB] at hP
        exact hP
      have hnew : amendedKvB (alpha, PyVal.dict (dictInsert inner (pageKey j) dc)) = true := by
        have hins := all_dictInsert _ inner (pageKey j) dc hpages
          (by simp [isPageKeyB_pageKey j, hdc])
        simp only [amendedKvB, letterKvB, hins, Bool.or_true]
      exact ih (j + 1) _ _ _ hrun (all_dictInsert _ acc alpha _ hacc hnew)

theorem outer_letters_loop_shapeInv (env : Env) :
    ∀ (navs : List Nat) (i : Nat) (acc : List (String × PyVal)) (tr : List Event)
      (res : List (String × PyVal)),
      outer_letters_loop env navs i acc = (tr, Except.ok res) →
      acc.all amendedKvB = true → res.all amendedKvB = true := by
  intro navs
  induction navs with
  | nil =>
      intro i acc tr res hrun hacc
      simp only [outer_letters_loop] at hrun
      rw [M.mpure_ok] at hrun
      obtain ⟨rfl, rfl⟩ := hrun
      exact hacc
  | cons a_nav rest ih =>
      intro i acc tr res hrun hacc
      simp only [outer_letters_loop] at hrun
      rw [M.bind_ok] at hrun
      obtain ⟨t1, el, t2, h1, hrun, rfl⟩ := hrun
      rw [M.bind_ok] at hrun
      obtain ⟨t3, pr, t4, h2, hrun, rfl⟩ := hrun
      rw [M.bind_ok] at hrun
      obtain ⟨t5, belems, t6, h3, hrun, rfl⟩ := hrun
      rw [M.bind_ok] at hrun
      obtain ⟨t7, acc2, t8, h4, hrun, rfl⟩ := hrun
      have hacc1 : (dictInsert acc (env.elemText a_nav) (PyVal.dict [])).all amendedKvB = true :=
        all_dictInsert _ acc _ _ hacc (by simp [amendedKvB, letterKvB])
      have hacc2 := inner_pages_loop_shapeInv env (env.elemText a_nav) pr.1
        (belems.map env.elemText) belems 0 _ t7 acc2 h4 hacc1
      exact ih (i + 1) acc2 t8 res hrun hacc2

theorem load_website_shape (env : Env) (url : String) (tr : List Event) (v : PyVal)
    (hrun : load_website env url = (tr, Except.ok v)) :
    extractionShapeAmendedB v = true := by
  simp only [load_website] at hrun
  rw [M.bind_ok] at hrun
  obtain ⟨t1, u1, t2, h1, hrun, rfl⟩ := hrun
  rw [M.bind_ok] at hrun
  obtain ⟨t3, u2, t4, h2, hrun, rfl⟩ := hrun
  rw [M.bind_ok] at hrun
  obtain ⟨t5, u3, t6, h3, hrun, rfl⟩ := hrun
  rw [M.bind_ok] at hrun
  obtain ⟨t7, u4, t8, h4, hrun, rfl⟩ := hrun
  rw [M.bind_ok] at hrun
  obtain ⟨t9, mt, t10, h5, hrun, rfl⟩ := hrun
  split at hrun
  · rw [M.bind_ok] at hrun
    obtain ⟨t11, tstr, t12, h6, hrun, rfl⟩ := hrun
    rw [M.bind_ok] at hrun
    obtain ⟨t13, ed, t14, h7, hrun, rfl⟩ := hrun
    rw [M.mpure_ok] at h7
    obtain ⟨rfl, rfl⟩ := h7
    have hed : (dictInsert [] "main" (PyVal.str tstr)).all amendedKvB = true := by
      simp +decide [dictInsert, amendedKvB, isStrB]
    rw [M.bind_ok] at hrun
    obtain ⟨t15, cf, t16, h8, hrun, rfl⟩ := hrun
    rw [M.bind_ok] at hrun
    obtain ⟨t17, ifr, t18, h9, hrun, rfl⟩ := hrun
    rw [M.bind_ok] at hrun
    obtain ⟨t19, u5, t20, h10, hrun, rfl⟩ := hrun
    rw [M.bind_ok] at hrun
    obtain ⟨t21, uls, t22, h11, hrun, rfl⟩ := hrun
    rw [M.bind_ok] at hrun
    obtain ⟨t23, ul0, t24, h12, hrun, rfl⟩ := hrun
    rw [M.bind_ok] at hrun
    obtain ⟨t25, anf, t26, h13, hrun, rfl⟩ := hrun
    rw [M.bind_ok] at hrun
    obtain ⟨t27, navs, t28, h14, hrun, rfl⟩ := hrun
    rw [M.bind_ok] at hrun
    obtain ⟨t29, extracted, t30, h15, hrun, rfl⟩ := hrun
    rw [M.pure_ok] at hrun
    obtain ⟨rfl, rfl⟩ := hrun
    have hsh := outer_letters_loop_shapeInv env navs 0 _ t29 extracted h15 hed
    simpa [extractionShapeAmendedB] using hsh
  · rw [M.bind_ok] at hrun
    obtain ⟨t13, ed, t14, h7, hrun, rfl⟩ := hrun
    rw [M.mpure_ok] at h7
    obtain ⟨rfl, rfl⟩ := h7
    rw [M.bind_ok] at hrun
    obtain ⟨t15, cf, t16, h8, hrun, rfl⟩ := hrun
    rw [M.bind_ok] at hrun
    obtain ⟨t17, ifr, t18, h9, hrun, rfl⟩ := hrun
    rw [M.bind_ok] at hrun
    obtain ⟨t19, u5, t20, h10, hrun, rfl⟩ := hrun
    rw [M.bind_ok] at hrun
    obtain ⟨t21, uls, t22, h11, hrun, rfl⟩ := hrun
    rw [M.bind_ok] at hrun
    obtain ⟨t23, ul0, t24, h12, hrun, rfl⟩ := hrun
    rw [M.bind_ok] at hrun
    obtain ⟨t25, anf, t26, h13, hrun, rfl⟩ := hrun
    rw [M.bind_ok] at hrun
    obtain ⟨t27, navs, t28, h14, hrun, rfl⟩ := hrun
    rw [M.bind_ok] at hrun
    obtain ⟨t29, extracted, t30, h15, hrun, rfl⟩ := hrun
    rw [M.pure_ok] at hrun
    obtain ⟨rfl, rfl⟩ := hrun
    have hsh := outer_letters_loop_shapeInv env navs 0 _ t29 extracted h15 (by simp)
    simpa [extractionShapeAmendedB] using hsh

theorem getLast_eq_concat {α : Type} (a : α) : ∀ (l : List α), (l ++ [a]).getLast? = some a
  | [] => rfl
  | b :: t => by
      rcases ht : t ++ [a] with _ | ⟨c, u⟩
      · exact absurd ht (by simp)
      · rw [List.cons_append, ht, List.getLast?_cons_cons, ← ht, getLast_eq_concat a t]

theorem escapeChar_nonascii (c : Char) (h : 128 ≤ c.toNat) : escapeChar c = [c] := by
  have h1 : ¬ c = '"' := fun he => absurd h (by rw [he]; decide)
  have h2 : ¬ c = '\\' := fun he => absurd h (by rw [he]; decide)
  have h3 : ¬ c = Char.ofNat 8 := fun he => absurd h (by rw [he]; decide)
  have h4 : ¬ c = Char.ofNat 9 := fun he => absurd h (by rw [he]; decide)
  have h5 : ¬ c = Char.ofNat 10 := fun he => absurd h (by rw [he]; decide)
  have h6 : ¬ c = Char.ofNat 12 := fun he => absurd h (by rw [he]; decide)
  have h7 : ¬ c = Char.ofNat 13 := fun he => absurd h (by rw [he]; decide)
  have h8 : ¬ c.toNat < 32 := by omega
  simp only [escapeChar, if_neg h1, if_neg h2, if_neg h3, if_neg h4, if_neg h5, if_neg h6,
    if_neg h7, if_neg h8]

/-- Claim C9 counterexample: on a concrete page with a `main` text block
and no letter groups the run succeeds and dumps the value mapping the
key `main` to the plain string `T`, which does not match the claimed
shape of a mapping from letter labels to mappings from page keys to
entries. -/
theorem extraction_shape_counterexample :
    (start_extraction fullEnv "u").2 = Except.ok () ∧
    ((start_extraction fullEnv "u").1).getLast? =
      some (Event.jsonDump jsonOutputPath (PyVal.dict [("main", PyVal.str "T")])) ∧
    extractionShapeB (PyVal.dict [("main", PyVal.str "T")]) = false :=
  ⟨rfl, rfl, rfl⟩

/-- Claim C9 (amended): on every successful run the last emitted event
is the JSON dump of a value matching the data-model shape extended with
an optional top-level `main` string entry; the written JSON text (the
model of `json.dump` with `indent=True` and `ensure_ascii=False`)
parses back to exactly that value, and non-ASCII characters are
rendered unescaped. -/
theorem extraction_roundtrip_amended (env : Env) (url : String) (tr : List Event)
    (hrun : start_extraction env url = (tr, Except.ok ())) :
    ∃ v, tr.getLast? = some (Event.jsonDump jsonOutputPath v) ∧
      extractionShapeAmendedB v = true ∧
      parseJson (renderJson v) = some v ∧
      ∀ c : Char, 128 ≤ c.toNat → escapeChar c = [c] := by
  rw [start_extraction_spec] at hrun
  by_cases hds : env.driverStarts = true
  · cases hlw : (load_website env url).2 with
    | ok v =>
        refine ⟨v, ?_, ?_, parse_render_roundtrip v, fun c hc => escapeChar_nonascii c hc⟩
        · have htr := congrArg Prod.fst hrun
          simp only [hds, eq_self_iff_true, if_true, hlw] at htr
          rw [← htr]
          rw [show (make_img_dir env).1 ++ (Event.startDriver :: ((load_website env url).1 ++
              [Event.quitDriver, Event.jsonDump jsonOutputPath v])) =
            ((make_img_dir env).1 ++ (Event.startDriver :: ((load_website env url).1 ++
              [Event.quitDriver]))) ++ [Event.jsonDump jsonOutputPath v] from by
            simp [List.append_assoc]]
          exact getLast_eq_concat _ _
        · exact load_website_shape env url (load_website env url).1 v (by rw [← hlw]; rfl)
    | error e =>
        have h2 := congrArg Prod.snd hrun
        simp only [hds, eq_self_iff_true, if_true, hlw] at h2
        simp at h2
  · have h2 := congrArg Prod.snd hrun
    simp [hds] at h2

/-- Witness for the amended C9 theorem: the concrete successful run of
the counterexample environment, via the theorem itself. -/
theorem extraction_roundtrip_amended_witness :
    ∃ v, ((start_extraction fullEnv "u").1).getLast? =
        some (Event.jsonDump jsonOutputPath v) ∧
      extractionShapeAmendedB v = true ∧
      parseJson (renderJson v) = some v ∧
      ∀ c : Char, 128 ≤ c.toNat → escapeChar c = [c] :=
  extraction_roundtrip_amended fullEnv "u" (start_extraction fullEnv "u").1 rfl
